import Mathlib

/-!
Verification of the Musical_chairs detection pipeline (src/modelLoader.ts).

The numeric core of the repository is embedded shallowly: JavaScript numbers
are modelled as exact rationals.  Where the source can produce the IEEE
value NaN (division by a zero denominator in calculateIoU and
calculateOverlap), the model returns an Option, with none standing for NaN;
every comparison against none is false, exactly as every comparison against
NaN is false in JavaScript.  Math.sqrt in calculateCenterDistance is
strictly monotone on nonnegative arguments, so the matcher's distance
comparisons are modelled on squared distances, which preserves every
comparison the source makes.  Mutable loops are modelled as folds or
fuelled structural recursion; the fuel always equals the loop bound of the
source, so the model follows the source's iteration exactly.
-/

/-- A normalized bounding box as stored on a detection (source field bbox:
x_center, y_center, width, height). -/
structure BBox where
  x_center : ℚ
  y_center : ℚ
  width : ℚ
  height : ℚ
deriving DecidableEq

/-- A raw detection as built inside the decode loops of modelLoader.ts:
confidence, normalized bbox, and the derived corner coordinates x1, y1, x2,
y2 that the NMS and IoU code reads. -/
structure RawDet where
  confidence : ℚ
  bbox : BBox
  x1 : ℚ
  y1 : ℚ
  x2 : ℚ
  y2 : ℚ
deriving DecidableEq

/-- A detection in the shape the decoders return to callers (the map back
to confidence and bbox after NMS). -/
structure Detection where
  confidence : ℚ
  bbox : BBox
deriving DecidableEq

/-- calculateIoU of modelLoader.ts (lines 135-147).  The source computes
intersection / union with no guard; when union = 0 the JavaScript result is
NaN (0/0), modelled here as none.  When union is nonzero the rational value
is the exact quotient. -/
def calculateIoU (box1 box2 : RawDet) : Option ℚ :=
  let x1 := max box1.x1 box2.x1
  let y1 := max box1.y1 box2.y1
  let x2 := min box1.x2 box2.x2
  let y2 := min box1.y2 box2.y2
  let intersection := max 0 (x2 - x1) * max 0 (y2 - y1)
  let area1 := (box1.x2 - box1.x1) * (box1.y2 - box1.y1)
  let area2 := (box2.x2 - box2.x1) * (box2.y2 - box2.y1)
  let union := area1 + area2 - intersection
  if union = 0 then none else some (intersection / union)

/-- The suppression test of applyNMS: iou > iouThreshold.  A NaN IoU
(none) compares false, as in JavaScript. -/
def iouExceeds (a b : RawDet) (t : ℚ) : Bool :=
  match calculateIoU a b with
  | none => false
  | some v => decide (v > t)

/-- The sort order of applyNMS: detections.sort((a, b) => b.confidence -
a.confidence) sorts by confidence, highest first, and is stable.  a
precedes b when b.confidence <= a.confidence. -/
def confDesc (a b : RawDet) : Prop := b.confidence ≤ a.confidence

instance : DecidableRel confDesc := fun a b => Rat.instDecidableLe b.confidence a.confidence

instance : IsTotal RawDet confDesc := ⟨fun a b => le_total b.confidence a.confidence⟩

instance : IsTrans RawDet confDesc := ⟨fun _ _ _ h1 h2 => le_trans h2 h1⟩

/-- The greedy sweep of applyNMS (lines 161-175): accept the current
highest-confidence detection, mark every later detection whose IoU with it
exceeds the threshold as suppressed, continue with the unsuppressed rest.
The fuel argument mirrors the loop bound i < detections.length; it is
always called with fuel = length of the list, so the base case with a
nonempty list is never reached. -/
def nmsSweep (t : ℚ) : ℕ → List RawDet → List RawDet
  | 0, _ => []
  | _ + 1, [] => []
  | fuel + 1, d :: rest =>
      d :: nmsSweep t fuel (rest.filter fun x => !(iouExceeds d x t))

/-- applyNMS of modelLoader.ts (lines 152-178): stable sort by descending
confidence, then the greedy suppression sweep. -/
def applyNMS (detections : List RawDet) (iouThreshold : ℚ) : List RawDet :=
  nmsSweep iouThreshold (List.insertionSort confDesc detections).length
    (List.insertionSort confDesc detections)

lemma length_filter_le_of_le {l : List RawDet} {p : RawDet → Bool} {n : ℕ}
    (h : l.length ≤ n) : (l.filter p).length ≤ n :=
  le_trans (List.length_filter_le p l) h

lemma nmsSweep_sublist (t : ℚ) : ∀ (fuel : ℕ) (l : List RawDet),
    (nmsSweep t fuel l).Sublist l := by
  intro fuel
  induction fuel with
  | zero => intro l; simp [nmsSweep]
  | succ n ih =>
      intro l
      match l with
      | [] => simp [nmsSweep]
      | d :: rest =>
          simp only [nmsSweep]
          exact List.Sublist.cons₂ d ((ih _).trans (List.filter_sublist rest))

lemma nmsSweep_pairwise (t : ℚ) : ∀ (fuel : ℕ) (l : List RawDet),
    (nmsSweep t fuel l).Pairwise (fun a b => iouExceeds a b t = false) := by
  intro fuel
  induction fuel with
  | zero => intro l; simp [nmsSweep]
  | succ n ih =>
      intro l
      match l with
      | [] => simp [nmsSweep]
      | d :: rest =>
          simp only [nmsSweep]
          refine List.Pairwise.cons ?_ (ih _)
          intro b hb
          have hmem : b ∈ rest.filter fun x => !(iouExceeds d x t) :=
            (nmsSweep_sublist t n _).subset hb
          have := List.of_mem_filter hmem
          simpa using this

lemma nmsSweep_of_pairwise (t : ℚ) : ∀ (fuel : ℕ) (l : List RawDet),
    l.length ≤ fuel → l.Pairwise (fun a b => iouExceeds a b t = false) →
    nmsSweep t fuel l = l := by
  intro fuel
  induction fuel with
  | zero =>
      intro l hl _
      interval_cases hll : l.length
      · exact (List.length_eq_zero.mp hll) ▸ rfl
  | succ n ih =>
      intro l hl hp
      match l with
      | [] => simp [nmsSweep]
      | d :: rest =>
          simp only [nmsSweep]
          have hfilter : (rest.filter fun x => !(iouExceeds d x t)) = rest := by
            apply List.filter_eq_self.mpr
            intro b hb
            simpa using List.rel_of_pairwise_cons hp hb
          rw [hfilter]
          have hlen : rest.length ≤ n := by
            simpa using Nat.lt_succ_iff.mp (lt_of_lt_of_le (by simp) hl)
          rw [ih rest hlen hp.of_cons]

lemma insertionSort_confDesc_sorted (l : List RawDet) :
    (List.insertionSort confDesc l).Pairwise confDesc :=
  List.sorted_insertionSort confDesc l

/-- C3. Non-maximum suppression is idempotent: running applyNMS on its own
output with the same threshold returns that output unchanged. -/
theorem nms_idempotent (D : List RawDet) (t : ℚ) :
    applyNMS (applyNMS D t) t = applyNMS D t := by
  have hsorted : (applyNMS D t).Pairwise confDesc :=
    List.Pairwise.sublist (nmsSweep_sublist t _ _) (insertionSort_confDesc_sorted D)
  have hsort_eq : List.insertionSort confDesc (applyNMS D t) = applyNMS D t :=
    List.Sorted.insertionSort_eq hsorted
  have hpair : (applyNMS D t).Pairwise (fun a b => iouExceeds a b t = false) :=
    nmsSweep_pairwise t _ _
  show nmsSweep t (List.insertionSort confDesc (applyNMS D t)).length
      (List.insertionSort confDesc (applyNMS D t)) = applyNMS D t
  rw [hsort_eq]
  exact nmsSweep_of_pairwise t _ _ le_rfl hpair

lemma calculateIoU_comm (a b : RawDet) : calculateIoU a b = calculateIoU b a := by
  simp only [calculateIoU]
  rw [max_comm b.x1 a.x1, max_comm b.y1 a.y1, min_comm b.x2 a.x2, min_comm b.y2 a.y2,
    add_comm ((b.x2 - b.x1) * (b.y2 - b.y1)) ((a.x2 - a.x1) * (a.y2 - a.y1))]

lemma iouExceeds_false_iff (a b : RawDet) (t : ℚ) :
    iouExceeds a b t = false ↔ ∀ v : ℚ, calculateIoU a b = some v → v ≤ t := by
  unfold iouExceeds
  cases h : calculateIoU a b with
  | none => simp
  | some v => simp [not_lt]

/-- C10. Invariants of the NMS output: the result is a subsequence of the
input sorted in descending confidence order (hence itself sorted
descending), and any two distinct surviving detections have IoU at most
the threshold whenever their IoU is a number at all. -/
theorem nms_output_invariant (D : List RawDet) (t : ℚ) :
    (applyNMS D t).Sublist (List.insertionSort confDesc D) ∧
    (applyNMS D t).Pairwise (fun a b => b.confidence ≤ a.confidence) ∧
    ∀ a ∈ applyNMS D t, ∀ b ∈ applyNMS D t, a ≠ b →
      ∀ v : ℚ, calculateIoU a b = some v → v ≤ t := by
  refine ⟨nmsSweep_sublist t _ _, ?_, ?_⟩
  · exact List.Pairwise.sublist (nmsSweep_sublist t _ _) (insertionSort_confDesc_sorted D)
  · have hpair : (applyNMS D t).Pairwise
        (fun a b => ∀ v : ℚ, calculateIoU a b = some v → v ≤ t) := by
      refine (nmsSweep_pairwise t _ _).imp ?_
      intro a b h
      exact (iouExceeds_false_iff a b t).mp h
    have hsymm : Symmetric (fun a b : RawDet => ∀ v : ℚ, calculateIoU a b = some v → v ≤ t) := by
      intro a b h v hv
      exact h v ((calculateIoU_comm a b).trans hv)
    intro a ha b hb hne
    exact List.Pairwise.forall hsymm hpair ha hb hne

lemma iouExceeds_mono {a b : RawDet} {t1 t2 : ℚ} (h : t1 ≤ t2)
    (h2 : iouExceeds a b t2 = true) : iouExceeds a b t1 = true := by
  unfold iouExceeds at h2 ⊢
  cases hio : calculateIoU a b with
  | none => rw [hio] at h2; exact absurd h2 (by simp)
  | some v =>
      rw [hio] at h2
      simp only [decide_eq_true_eq] at h2 ⊢
      exact lt_of_le_of_lt h h2

/-- Length of the greedy sweep on a three-element list, as a function of
the three pairwise suppression tests. -/
def sweepLenOfThree (p q r : Bool) : ℕ :=
  if p then (if q then 1 else 2) else (if q then 2 else (if r then 2 else 3))

lemma sweepLenOfThree_mono (p q r p' q' r' : Bool)
    (hp : p' = true → p = true) (hq : q' = true → q = true)
    (hr : r' = true → r = true) :
    sweepLenOfThree p q r ≤ sweepLenOfThree p' q' r' := by
  cases p <;> cases q <;> cases r <;> cases p' <;> cases q' <;> cases r' <;>
    simp_all [sweepLenOfThree]

lemma nmsSweep_three (t : ℚ) (a b c : RawDet) :
    (nmsSweep t 3 [a, b, c]).length =
      sweepLenOfThree (iouExceeds a b t) (iouExceeds a c t) (iouExceeds b c t) := by
  cases hab : iouExceeds a b t <;> cases hac : iouExceeds a c t <;>
    cases hbc : iouExceeds b c t <;>
    simp [nmsSweep, List.filter, hab, hac, hbc, sweepLenOfThree]

lemma nmsSweep_two (t : ℚ) (a b : RawDet) :
    (nmsSweep t 2 [a, b]).length = if iouExceeds a b t then 1 else 2 := by
  cases hab : iouExceeds a b t <;> simp [nmsSweep, List.filter, hab]

/-- C4 (amended). Threshold monotonicity of applyNMS holds for inputs of at
most three detections: with t1 <= t2, the count retained at t2 is at least
the count retained at t1.  (With four detections it fails; see the
counterexample.) -/
theorem nms_threshold_monotone_of_length_le_three (D : List RawDet)
    (hD : D.length ≤ 3) (t1 t2 : ℚ) (h : t1 ≤ t2) :
    (applyNMS D t1).length ≤ (applyNMS D t2).length := by
  unfold applyNMS
  have hlen : (List.insertionSort confDesc D).length = D.length :=
    (List.perm_insertionSort confDesc D).length_eq
  set L := List.insertionSort confDesc D with hL
  have hlen3 : L.length ≤ 3 := by rw [hlen]; exact hD
  clear_value L
  obtain _ | ⟨a, _ | ⟨b, _ | ⟨c, _ | ⟨d, rest⟩⟩⟩⟩ := L
  · simp [nmsSweep]
  · simp [nmsSweep, List.filter]
  · rw [show ([a, b] : List RawDet).length = 2 from rfl]
    rw [nmsSweep_two, nmsSweep_two]
    by_cases h2 : iouExceeds a b t2 = true
    · have h1 : iouExceeds a b t1 = true := iouExceeds_mono h h2
      simp [h1, h2]
    · simp only [Bool.not_eq_true] at h2
      by_cases h1 : iouExceeds a b t1 = true <;> simp [h1, h2]
  · rw [show ([a, b, c] : List RawDet).length = 3 from rfl]
    rw [nmsSweep_three, nmsSweep_three]
    exact sweepLenOfThree_mono _ _ _ _ _ _
      (fun hx => iouExceeds_mono h hx) (fun hx => iouExceeds_mono h hx)
      (fun hx => iouExceeds_mono h hx)
  · exfalso
    simp only [List.length_cons] at hlen3
    omega

/-- First box of the monotonicity counterexample: corners (0,0)-(10,4),
confidence 0.9. -/
def cexBoxA : RawDet := ⟨9/10, ⟨0, 0, 0, 0⟩, 0, 0, 10, 4⟩

/-- Second box: corners (0,0)-(10,1), confidence 0.8. -/
def cexBoxB : RawDet := ⟨8/10, ⟨0, 0, 0, 0⟩, 0, 0, 10, 1⟩

/-- Third box: corners (-4.5,0)-(5.5,1), confidence 0.7. -/
def cexBoxC : RawDet := ⟨7/10, ⟨0, 0, 0, 0⟩, -(9/2), 0, 11/2, 1⟩

/-- Fourth box: corners (4.5,0)-(14.5,1), confidence 0.6. -/
def cexBoxD : RawDet := ⟨6/10, ⟨0, 0, 0, 0⟩, 9/2, 0, 29/2, 1⟩

/-- C4 (counterexample). Raising the IoU threshold from 0.13 to 0.35
strictly decreases the number of retained detections on this four-box
input: at 0.13 the top box suppresses only the second and three survive,
while at 0.35 the second box survives and then suppresses the last two,
leaving two. -/
theorem nms_threshold_monotone_counterexample :
    (13 : ℚ)/100 ≤ 35/100 ∧
    (applyNMS [cexBoxA, cexBoxB, cexBoxC, cexBoxD] (35/100)).length <
      (applyNMS [cexBoxA, cexBoxB, cexBoxC, cexBoxD] (13/100)).length := by
  constructor
  · norm_num
  · have hsorted : List.insertionSort confDesc [cexBoxA, cexBoxB, cexBoxC, cexBoxD] =
        [cexBoxA, cexBoxB, cexBoxC, cexBoxD] := by
      norm_num [List.insertionSort, List.orderedInsert, confDesc,
        cexBoxA, cexBoxB, cexBoxC, cexBoxD]
    have eAB35 : iouExceeds cexBoxA cexBoxB (35/100) = false := by
      norm_num [iouExceeds, calculateIoU, cexBoxA, cexBoxB, decide_eq_false_iff_not]
    have eAC35 : iouExceeds cexBoxA cexBoxC (35/100) = false := by
      norm_num [iouExceeds, calculateIoU, cexBoxA, cexBoxC, decide_eq_false_iff_not]
    have eAD35 : iouExceeds cexBoxA cexBoxD (35/100) = false := by
      norm_num [iouExceeds, calculateIoU, cexBoxA, cexBoxD, decide_eq_false_iff_not]
    have eBC35 : iouExceeds cexBoxB cexBoxC (35/100) = true := by
      norm_num [iouExceeds, calculateIoU, cexBoxB, cexBoxC, decide_eq_true_eq]
    have eBD35 : iouExceeds cexBoxB cexBoxD (35/100) = true := by
      norm_num [iouExceeds, calculateIoU, cexBoxB, cexBoxD, decide_eq_true_eq]
    have eAB13 : iouExceeds cexBoxA cexBoxB (13/100) = true := by
      norm_num [iouExceeds, calculateIoU, cexBoxA, cexBoxB, decide_eq_true_eq]
    have eAC13 : iouExceeds cexBoxA cexBoxC (13/100) = false := by
      norm_num [iouExceeds, calculateIoU, cexBoxA, cexBoxC, decide_eq_false_iff_not]
    have eAD13 : iouExceeds cexBoxA cexBoxD (13/100) = false := by
      norm_num [iouExceeds, calculateIoU, cexBoxA, cexBoxD, decide_eq_false_iff_not]
    have eCD13 : iouExceeds cexBoxC cexBoxD (13/100) = false := by
      norm_num [iouExceeds, calculateIoU, cexBoxC, cexBoxD, decide_eq_false_iff_not]
    unfold applyNMS
    rw [hsorted]
    simp [nmsSweep, List.filter, eAB35, eAC35, eAD35, eBC35, eBD35,
      eAB13, eAC13, eAD13, eCD13]

/-- C4 (witness). The amended monotonicity theorem instantiated on a
concrete one-element list with thresholds 0 and 1. -/
theorem nms_threshold_monotone_witness :
    (applyNMS [cexBoxA] 0).length ≤ (applyNMS [cexBoxA] 1).length :=
  nms_threshold_monotone_of_length_le_three [cexBoxA] (by norm_num) 0 1 (by norm_num)

/-- C6 (amended). calculateIoU returns intersection / union with
intersection = max(0, min(x2a,x2b) - max(x1a,x1b)) * max(0, min(y2a,y2b) -
max(y1a,y1b)) and union = area(a) + area(b) - intersection, whenever the
union is nonzero; when the union is 0 the source divides zero by zero and
produces NaN (modelled as none), not the number 0. -/
theorem calculateIoU_formula (box1 box2 : RawDet) :
    (let inter := max 0 (min box1.x2 box2.x2 - max box1.x1 box2.x1) *
        max 0 (min box1.y2 box2.y2 - max box1.y1 box2.y1)
     let union := (box1.x2 - box1.x1) * (box1.y2 - box1.y1) +
        (box2.x2 - box2.x1) * (box2.y2 - box2.y1) - inter
     (union ≠ 0 → calculateIoU box1 box2 = some (inter / union)) ∧
     (union = 0 → calculateIoU box1 box2 = none)) := by
  refine ⟨fun h => ?_, fun h => ?_⟩ <;> simp [calculateIoU, h]

/-- A fully degenerate box: all four corners at (0.5, 0.5), zero area. -/
def cexDegenerate : RawDet := ⟨1/2, ⟨0, 0, 0, 0⟩, 1/2, 1/2, 1/2, 1/2⟩

/-- C6 (counterexample). For two identical degenerate boxes the union is 0,
and calculateIoU does not return 0 there: the source computes 0/0, which is
NaN (none in this model), refuting the claim that the function returns 0
when the union is 0. -/
theorem calculateIoU_zero_union_counterexample :
    ((cexDegenerate.x2 - cexDegenerate.x1) * (cexDegenerate.y2 - cexDegenerate.y1) +
      (cexDegenerate.x2 - cexDegenerate.x1) * (cexDegenerate.y2 - cexDegenerate.y1) -
      max 0 (min cexDegenerate.x2 cexDegenerate.x2 - max cexDegenerate.x1 cexDegenerate.x1) *
      max 0 (min cexDegenerate.y2 cexDegenerate.y2 - max cexDegenerate.y1 cexDegenerate.y1)) = 0 ∧
    calculateIoU cexDegenerate cexDegenerate ≠ some 0 := by
  constructor
  · norm_num [cexDegenerate]
  · norm_num [calculateIoU, cexDegenerate]
    simp

/-- The class-score read of the decode loops: classScore =
data[featureIdx * numDetections + i] with featureIdx = 4 + classIdx. -/
def classScore (data : ℕ → ℚ) (N i c : ℕ) : ℚ := data ((4 + c) * N + i)

/-- One comparison of the argmax loop: classScore > maxClassScore, where
maxClassScore starts at -Infinity (modelled none), so the first finite
score always wins. -/
def scoreBeats (s : ℚ) (acc : Option ℚ) : Bool :=
  match acc with
  | none => true
  | some m => decide (s > m)

/-- The argmax loop of both decoders (source lines 269-280 and 366-377):
scan class indices 0..n-1, keeping the strictly greatest score and the
first index attaining it.  The accumulator starts at
(maxClassScore = -Infinity, bestClassId = -1). -/
def argmaxScan (data : ℕ → ℚ) (N i n : ℕ) : Option ℚ × ℤ :=
  (List.range n).foldl
    (fun acc c =>
      if scoreBeats (classScore data N i c) acc.1 then
        (some (classScore data N i c), (c : ℤ))
      else acc)
    (none, -1)

lemma argmaxScan_spec (data : ℕ → ℚ) (N i : ℕ) : ∀ n : ℕ, 0 < n →
    ∃ j : ℕ, j < n ∧
      argmaxScan data N i n = (some (classScore data N i j), (j : ℤ)) ∧
      (∀ c < n, classScore data N i c ≤ classScore data N i j) ∧
      (∀ c < j, classScore data N i c < classScore data N i j) := by
  intro n
  induction n with
  | zero => intro h; exact absurd h (lt_irrefl 0)
  | succ n ih =>
      intro _
      by_cases hn : 0 < n
      · obtain ⟨j, hj, heq, hmax, hstrict⟩ := ih hn
        have hstep : argmaxScan data N i (n + 1) =
            (if scoreBeats (classScore data N i n) (argmaxScan data N i n).1 then
              (some (classScore data N i n), (n : ℤ))
            else argmaxScan data N i n) := by
          unfold argmaxScan
          rw [List.range_succ, List.foldl_append]
          simp
        rw [heq] at hstep
        by_cases hbeat : classScore data N i n > classScore data N i j
        · refine ⟨n, by omega, ?_, ?_, ?_⟩
          · rw [hstep]; simp [scoreBeats, hbeat]
          · intro c hc
            rcases Nat.lt_succ_iff_lt_or_eq.mp hc with h | h
            · exact le_trans (hmax c h) (le_of_lt hbeat)
            · subst h; exact le_refl _
          · intro c hc
            exact lt_of_le_of_lt (hmax c hc) hbeat
        · refine ⟨j, by omega, ?_, ?_, hstrict⟩
          · rw [hstep]; simp [scoreBeats, hbeat]
          · intro c hc
            rcases Nat.lt_succ_iff_lt_or_eq.mp hc with h | h
            · exact hmax c h
            · subst h; exact not_lt.mp hbeat
      · have hn0 : n = 0 := by omega
        subst hn0
        refine ⟨0, by omega, ?_, ?_, ?_⟩
        · unfold argmaxScan
          simp [List.range_succ, scoreBeats]
        · intro c hc; interval_cases c; exact le_refl _
        · intro c hc; omega

lemma firstArgmax_unique {f : ℕ → ℚ} {n j k : ℕ} (hj : j < n) (hk : k < n)
    (hmj : ∀ c < n, f c ≤ f j) (hsj : ∀ c < j, f c < f j)
    (hmk : ∀ c < n, f c ≤ f k) (hsk : ∀ c < k, f c < f k) : j = k := by
  rcases lt_trichotomy j k with h | h | h
  · exact absurd (hsk j h) (not_lt.mpr (hmj k hk))
  · exact h
  · exact absurd (hsj k h) (not_lt.mpr (hmk j hj))

/-- The body of the persons-and-chairs decode loop for one cell i (source
lines 358-399): read the four bbox planes, run the argmax over the 80
class-score planes, and keep the cell when maxClassScore >= 0.7, the best
class is 0 (person) or 56 (chair), and both normalized sizes exceed 0.02.
Returns the best class id together with the detection that the source
pushes. -/
def cellDetPersonsChairs (data : ℕ → ℚ) (N i : ℕ) : Option (ℤ × RawDet) :=
  let x_center := data (0 * N + i)
  let y_center := data (1 * N + i)
  let width := data (2 * N + i)
  let height := data (3 * N + i)
  match argmaxScan data N i 80 with
  | (none, _) => none
  | (some maxClassScore, bestClassId) =>
      if maxClassScore ≥ 7/10 ∧ (bestClassId = 0 ∨ bestClassId = 56) then
        if width > 2/100 ∧ height > 2/100 then
          some (bestClassId,
            ⟨maxClassScore, ⟨x_center, y_center, width, height⟩,
              x_center - width / 2, y_center - height / 2,
              x_center + width / 2, y_center + height / 2⟩)
        else none
      else none

/-- The body of the persons-only decode loop for one cell i (source lines
261-303): same reads, kept when the best class is 0 and maxClassScore >=
0.7 and both sizes exceed 0.02. -/
def cellDetPersons (data : ℕ → ℚ) (N i : ℕ) : Option RawDet :=
  let x_center := data (0 * N + i)
  let y_center := data (1 * N + i)
  let width := data (2 * N + i)
  let height := data (3 * N + i)
  match argmaxScan data N i 80 with
  | (none, _) => none
  | (some maxClassScore, bestClassId) =>
      if bestClassId = 0 ∧ maxClassScore ≥ 7/10 then
        if width > 2/100 ∧ height > 2/100 then
          some ⟨maxClassScore, ⟨x_center, y_center, width, height⟩,
            x_center - width / 2, y_center - height / 2,
            x_center + width / 2, y_center + height / 2⟩
        else none
      else none

/-- An output tensor: a shape (list of dimension sizes) and its flat data
buffer, read by index. -/
structure Tensor where
  dims : List ℕ
  data : ℕ → ℚ

/-- The result shape of processOutputTensorToCountPersons. -/
structure DetectionResult where
  personCount : ℕ
  detections : List Detection
deriving DecidableEq

/-- The result shape of processOutputTensorToCountPersonsAndChairs. -/
structure PersonChairDetectionResult where
  personCount : ℕ
  chairCount : ℕ
  persons : List Detection
  chairs : List Detection
deriving DecidableEq

/-- The map back to the caller-facing shape after NMS: keep confidence and
bbox. -/
def toDetection (d : RawDet) : Detection := ⟨d.confidence, d.bbox⟩

/-- processOutputTensorToCountPersons of modelLoader.ts (lines 244-334):
the guard rejects any tensor whose dims entry 1 is not 84 or whose dims
entry 2 is not 8400 (the destructured features and numDetections); the
batch entry is read but never checked.  Then every cell is decoded, NMS at
threshold 0.5 is applied, and the survivors are returned. -/
def processOutputTensorToCountPersons (t : Tensor) : DetectionResult :=
  if t.dims.get? 1 = some 84 ∧ t.dims.get? 2 = some 8400 then
    let rawDetections := (List.range 8400).filterMap (cellDetPersons t.data 8400)
    let detections := (applyNMS rawDetections (5/10)).map toDetection
    ⟨detections.length, detections⟩
  else ⟨0, []⟩

/-- processOutputTensorToCountPersonsAndChairs of modelLoader.ts (lines
342-427): same guard; cells whose best class is 0 go to persons, best
class 56 to chairs; NMS at 0.5 runs independently per class. -/
def processOutputTensorToCountPersonsAndChairs (t : Tensor) : PersonChairDetectionResult :=
  if t.dims.get? 1 = some 84 ∧ t.dims.get? 2 = some 8400 then
    let rawPersons := (List.range 8400).filterMap fun i =>
      (cellDetPersonsChairs t.data 8400 i).bind fun p =>
        if p.1 = 0 then some p.2 else none
    let rawChairs := (List.range 8400).filterMap fun i =>
      (cellDetPersonsChairs t.data 8400 i).bind fun p =>
        if p.1 = 56 then some p.2 else none
    let persons := (applyNMS rawPersons (5/10)).map toDetection
    let chairs := (applyNMS rawChairs (5/10)).map toDetection
    ⟨persons.length, chairs.length, persons, chairs⟩
  else ⟨0, 0, [], []⟩

/-- C1. The persons-and-chairs decoder reads the bbox of cell i from the
per-feature planes (x_center = data[0*N+i], y_center = data[1*N+i], width
= data[2*N+i], height = data[3*N+i] with N = 8400), computes bestClassId
and maxClassScore as the (first) argmax of the 80 class-score planes at
features 4..83, and produces a raw detection for cell i exactly when the
best class is 0 or 56, maxClassScore >= 0.7, and the normalized width and
height both exceed 0.02. -/
theorem decoder_cell_detection_iff (data : ℕ → ℚ) (i : ℕ) :
    ((cellDetPersonsChairs data 8400 i).isSome ↔
      ((∃ best : ℕ, best < 80 ∧
          (∀ c < 80, classScore data 8400 i c ≤ classScore data 8400 i best) ∧
          (∀ c < best, classScore data 8400 i c < classScore data 8400 i best) ∧
          (best = 0 ∨ best = 56) ∧ classScore data 8400 i best ≥ 7/10) ∧
        data (2 * 8400 + i) > 2/100 ∧ data (3 * 8400 + i) > 2/100)) ∧
    (∀ b : ℤ, ∀ d : RawDet, cellDetPersonsChairs data 8400 i = some (b, d) →
      (b = 0 ∨ b = 56) ∧
      d.bbox = ⟨data (0 * 8400 + i), data (1 * 8400 + i),
        data (2 * 8400 + i), data (3 * 8400 + i)⟩ ∧
      ∃ best : ℕ, b = (best : ℤ) ∧ d.confidence = classScore data 8400 i best ∧
        ∀ c < 80, classScore data 8400 i c ≤ classScore data 8400 i best) := by
  obtain ⟨j, hj, heq, hmax, hstrict⟩ := argmaxScan_spec data 8400 i 80 (by norm_num)
  have hcell : cellDetPersonsChairs data 8400 i =
      (if classScore data 8400 i j ≥ 7/10 ∧ ((j : ℤ) = 0 ∨ (j : ℤ) = 56) then
        (if data (2 * 8400 + i) > 2/100 ∧ data (3 * 8400 + i) > 2/100 then
          some ((j : ℤ),
            ⟨classScore data 8400 i j, ⟨data (0 * 8400 + i), data (1 * 8400 + i),
              data (2 * 8400 + i), data (3 * 8400 + i)⟩,
            data (0 * 8400 + i) - data (2 * 8400 + i) / 2,
            data (1 * 8400 + i) - data (3 * 8400 + i) / 2,
            data (0 * 8400 + i) + data (2 * 8400 + i) / 2,
            data (1 * 8400 + i) + data (3 * 8400 + i) / 2⟩)
        else none)
      else none) := by
    unfold cellDetPersonsChairs
    rw [heq]
  constructor
  · rw [hcell]
    constructor
    · intro hsome
      by_cases hcond : classScore data 8400 i j ≥ 7/10 ∧ ((j : ℤ) = 0 ∨ (j : ℤ) = 56)
      · rw [if_pos hcond] at hsome
        by_cases hsize : data (2 * 8400 + i) > 2/100 ∧ data (3 * 8400 + i) > 2/100
        · refine ⟨⟨j, hj, hmax, hstrict, ?_, hcond.1⟩, hsize⟩
          rcases hcond.2 with h | h
          · exact Or.inl (by exact_mod_cast h)
          · exact Or.inr (by exact_mod_cast h)
        · rw [if_neg hsize] at hsome
          exact absurd hsome (by simp)
      · rw [if_neg hcond] at hsome
        exact absurd hsome (by simp)
    · rintro ⟨⟨best, hb80, hbmax, hbstrict, hbid, hbth⟩, hsize⟩
      have hjb : j = best := firstArgmax_unique hj hb80 hmax hstrict hbmax hbstrict
      subst hjb
      have hcond : classScore data 8400 i j ≥ 7/10 ∧ ((j : ℤ) = 0 ∨ (j : ℤ) = 56) := by
        refine ⟨hbth, ?_⟩
        rcases hbid with h | h
        · exact Or.inl (by exact_mod_cast h)
        · exact Or.inr (by exact_mod_cast h)
      rw [if_pos hcond, if_pos hsize]
      simp
  · intro b d h
    rw [hcell] at h
    by_cases hcond : classScore data 8400 i j ≥ 7/10 ∧ ((j : ℤ) = 0 ∨ (j : ℤ) = 56)
    · rw [if_pos hcond] at h
      by_cases hsize : data (2 * 8400 + i) > 2/100 ∧ data (3 * 8400 + i) > 2/100
      · rw [if_pos hsize] at h
        have hb : b = (j : ℤ) ∧ d = ⟨classScore data 8400 i j,
            ⟨data (0 * 8400 + i), data (1 * 8400 + i),
              data (2 * 8400 + i), data (3 * 8400 + i)⟩,
            data (0 * 8400 + i) - data (2 * 8400 + i) / 2,
            data (1 * 8400 + i) - data (3 * 8400 + i) / 2,
            data (0 * 8400 + i) + data (2 * 8400 + i) / 2,
            data (1 * 8400 + i) + data (3 * 8400 + i) / 2⟩ := by
          have h2 := h
          simp only [Option.some_inj, Prod.mk.injEq] at h2
          exact ⟨h2.1.symm, h2.2.symm⟩
        refine ⟨hb.1 ▸ hcond.2, ?_, ⟨j, hb.1, ?_, hmax⟩⟩
        · rw [hb.2]
        · rw [hb.2]
      · rw [if_neg hsize] at h
        exact absurd h (by simp)
    · rw [if_neg hcond] at h
      exact absurd h (by simp)

/-- C5 (amended). Both decoders return the empty result, without throwing,
for every tensor whose dims entry 1 is not 84 or whose dims entry 2 is not
8400 — in particular for shape [1, 80, 100].  (The batch entry and any
further dims are never validated; see the counterexample for a shape
[2, 84, 8400] tensor that decodes to a nonempty result even though its
shape does not match [1, 84, N].) -/
theorem decoder_shape_guard (t : Tensor)
    (h : ¬ (t.dims.get? 1 = some 84 ∧ t.dims.get? 2 = some 8400)) :
    processOutputTensorToCountPersons t = ⟨0, []⟩ ∧
    processOutputTensorToCountPersonsAndChairs t = ⟨0, 0, [], []⟩ := by
  constructor
  · unfold processOutputTensorToCountPersons
    rw [if_neg h]
  · unfold processOutputTensorToCountPersonsAndChairs
    rw [if_neg h]

/-- C5 (witness). The guard theorem instantiated at a concrete tensor of
shape [1, 80, 100]: both decoders return the empty result. -/
theorem decoder_shape_guard_witness :
    processOutputTensorToCountPersons ⟨[1, 80, 100], fun _ => 0⟩ = ⟨0, []⟩ ∧
    processOutputTensorToCountPersonsAndChairs ⟨[1, 80, 100], fun _ => 0⟩ = ⟨0, 0, [], []⟩ :=
  decoder_shape_guard ⟨[1, 80, 100], fun _ => 0⟩ (by decide)

/-- Data buffer of the unchecked-batch counterexample: 1.0 on every index
below 42000, 0 elsewhere.  At cell 0 this makes width = height = 1, the
class-0 score 1, and every other class score 0. -/
def c5data : ℕ → ℚ := fun idx => if idx < 42000 then 1 else 0

lemma c5data_classScore_zero : classScore c5data 8400 0 0 = 1 := by
  norm_num [classScore, c5data]

lemma c5data_classScore_pos {c : ℕ} (hc : 1 ≤ c) : classScore c5data 8400 0 c = 0 := by
  unfold classScore c5data
  rw [if_neg (by omega)]

lemma c5cell_isSome : (cellDetPersons c5data 8400 0).isSome = true := by
  obtain ⟨j, hj, heq, hmax, hstrict⟩ := argmaxScan_spec c5data 8400 0 80 (by norm_num)
  have hj0 : j = 0 := by
    by_contra hne
    have h1 : classScore c5data 8400 0 0 ≤ classScore c5data 8400 0 j :=
      hmax 0 (by omega)
    rw [c5data_classScore_zero, c5data_classScore_pos (by omega)] at h1
    norm_num at h1
  subst hj0
  rw [c5data_classScore_zero] at heq
  have hcell : cellDetPersons c5data 8400 0 =
      (if ((0 : ℕ) : ℤ) = 0 ∧ (1 : ℚ) ≥ 7/10 then
        (if c5data (2 * 8400 + 0) > 2/100 ∧ c5data (3 * 8400 + 0) > 2/100 then
          some ⟨1, ⟨c5data (0 * 8400 + 0), c5data (1 * 8400 + 0),
            c5data (2 * 8400 + 0), c5data (3 * 8400 + 0)⟩,
          c5data (0 * 8400 + 0) - c5data (2 * 8400 + 0) / 2,
          c5data (1 * 8400 + 0) - c5data (3 * 8400 + 0) / 2,
          c5data (0 * 8400 + 0) + c5data (2 * 8400 + 0) / 2,
          c5data (1 * 8400 + 0) + c5data (3 * 8400 + 0) / 2⟩
        else none)
      else none) := by
    unfold cellDetPersons
    rw [heq]
  rw [hcell]
  rw [if_pos (by norm_num), if_pos (by norm_num [c5data])]
  rfl

lemma applyNMS_ne_nil {l : List RawDet} (h : l ≠ []) (t : ℚ) : applyNMS l t ≠ [] := by
  unfold applyNMS
  have hlen : (List.insertionSort confDesc l).length = l.length :=
    (List.perm_insertionSort confDesc l).length_eq
  cases hs : List.insertionSort confDesc l with
  | nil =>
      rw [hs] at hlen
      exact absurd (List.length_eq_zero.mp hlen.symm) h
  | cons d rest =>
      simp [nmsSweep]

/-- C5 (counterexample). A tensor of shape [2, 84, 8400] does not match
the [1, 84, N] contract, yet the persons decoder returns a nonempty
result on it: the batch entry of the shape is never validated. -/
theorem decoder_shape_guard_counterexample :
    (∀ N : ℕ, ([2, 84, 8400] : List ℕ) ≠ [1, 84, N]) ∧
    (processOutputTensorToCountPersons ⟨[2, 84, 8400], c5data⟩).personCount ≠ 0 := by
  constructor
  · intro N
    simp
  · have hguard : (([2, 84, 8400] : List ℕ).get? 1 = some 84 ∧
        ([2, 84, 8400] : List ℕ).get? 2 = some 8400) := by decide
    unfold processOutputTensorToCountPersons
    rw [if_pos hguard]
    have hraw : (List.range 8400).filterMap (cellDetPersons c5data 8400) ≠ [] := by
      intro hnil
      have h0 : cellDetPersons c5data 8400 0 = none :=
        (List.filterMap_eq_nil_iff.mp hnil) 0 (by simp)
      have hc := c5cell_isSome
      rw [h0] at hc
      simp at hc
    have hnms := applyNMS_ne_nil hraw (5/10)
    simpa using hnms

/-- The pixel-coordinate record convertToPixelCoords returns (source lines
682-698). -/
structure PixelCoords where
  x1 : ℤ
  y1 : ℤ
  x2 : ℤ
  y2 : ℤ
  pixelX : ℤ
  pixelY : ℤ
  pixelWidth : ℤ
  pixelHeight : ℤ
deriving DecidableEq

/-- convertToPixelCoords of modelLoader.ts: scale the normalized bbox by
the image dimensions, rounding each quantity with Math.round (round half
up, which round on rationals matches). -/
def convertToPixelCoords (bbox : BBox) (imageWidth imageHeight : ℚ) : PixelCoords :=
  let pixelX := round (bbox.x_center * imageWidth)
  let pixelY := round (bbox.y_center * imageHeight)
  let pixelWidth := round (bbox.width * imageWidth)
  let pixelHeight := round (bbox.height * imageHeight)
  let x1 := round ((pixelX : ℚ) - (pixelWidth : ℚ) / 2)
  let y1 := round ((pixelY : ℚ) - (pixelHeight : ℚ) / 2)
  let x2 := round ((pixelX : ℚ) + (pixelWidth : ℚ) / 2)
  let y2 := round ((pixelY : ℚ) + (pixelHeight : ℚ) / 2)
  ⟨x1, y1, x2, y2, pixelX, pixelY, pixelWidth, pixelHeight⟩

/-- calculateOverlap of modelLoader.ts (lines 783-793): intersection area
divided by the area of the FIRST box only (directional, not symmetric
IoU).  When area1 = 0 the intersection is forced to 0 as well (a zero
factor of area1 bounds the matching intersection factor by 0), so the
source computes 0/0 = NaN, modelled as none. -/
def calculateOverlap (box1 box2 : PixelCoords) : Option ℚ :=
  let x1 := max box1.x1 box2.x1
  let y1 := max box1.y1 box2.y1
  let x2 := min box1.x2 box2.x2
  let y2 := min box1.y2 box2.y2
  let intersection := max 0 (x2 - x1) * max 0 (y2 - y1)
  let area1 := (box1.x2 - box1.x1) * (box1.y2 - box1.y1)
  if area1 = 0 then none else some ((intersection : ℚ) / (area1 : ℚ))

/-- The squared center distance of calculateCenterDistance (lines
798-802).  The source applies Math.sqrt to this value; sqrt is strictly
monotone on nonnegative reals, so every comparison the matcher makes on
distances coincides with the comparison on these squares. -/
def calculateCenterDistanceSq (box1 box2 : Detection) : ℚ :=
  let dx := box1.bbox.x_center - box2.bbox.x_center
  let dy := box1.bbox.y_center - box2.bbox.y_center
  dx * dx + dy * dy

/-- The overlap of a (person, chair) pair as the winner loop computes it
(lines 941-944): convert both normalized boxes to pixel coordinates, then
take the directional overlap. -/
def overlapOf (W H : ℚ) (person chair : Detection) : Option ℚ :=
  calculateOverlap (convertToPixelCoords person.bbox W H)
    (convertToPixelCoords chair.bbox W H)

/-- The four mutable variables of the winner-selection scan (lines
933-936): bestPerson = null, bestOverlap = 0, bestDistance = Infinity
(none; finite distances are stored squared), bestConfidence = 0. -/
structure MatchState where
  bestPerson : Option Detection
  bestOverlap : ℚ
  bestDistanceSq : Option ℚ
  bestConfidence : ℚ
deriving DecidableEq

/-- distance < bestDistance: every finite distance is below the initial
Infinity. -/
def distLt (d : ℚ) (s : Option ℚ) : Bool :=
  match s with
  | none => true
  | some e => decide (d < e)

/-- distance === bestDistance: never equal to the initial Infinity. -/
def distEq (d : ℚ) (s : Option ℚ) : Bool :=
  match s with
  | none => false
  | some e => decide (d = e)

/-- The initial scan state. -/
def matchInit : MatchState := ⟨none, 0, none, 0⟩

/-- The update test of the scan (lines 950-952): strictly higher overlap,
or equal overlap and strictly smaller distance, or equal overlap and
distance and strictly higher person confidence. -/
def matchImproves (o d c : ℚ) (s : MatchState) : Prop :=
  o > s.bestOverlap ∨
    (o = s.bestOverlap ∧ distLt d s.bestDistanceSq = true) ∨
    (o = s.bestOverlap ∧ distEq d s.bestDistanceSq = true ∧ c > s.bestConfidence)

instance (o d c : ℚ) (s : MatchState) : Decidable (matchImproves o d c s) := by
  unfold matchImproves
  infer_instance

/-- One iteration of the pair scan (lines 938-958): a NaN overlap (none)
fails every comparison and leaves the state unchanged. -/
def matchStep (W H : ℚ) (s : MatchState) (pc : Detection × Detection) : MatchState :=
  match overlapOf W H pc.1 pc.2 with
  | none => s
  | some overlap =>
      let dsq := calculateCenterDistanceSq pc.1 pc.2
      if matchImproves overlap dsq pc.1.confidence s then
        ⟨some pc.1, overlap, some dsq, pc.1.confidence⟩
      else s

/-- The person-chair matcher embedded in detectWinner (lines 933-959): scan
the full cross product, persons outer, chairs inner. -/
def findBestMatch (persons chairs : List Detection) (W H : ℚ) : MatchState :=
  (persons.product chairs).foldl (matchStep W H) matchInit

/-- The qualification test after the scan (line 961): a best person was
found and its overlap exceeds the 0.1 minimum. -/
def matchQualifies (s : MatchState) : Bool :=
  s.bestPerson.isSome && decide (s.bestOverlap > 1/10)

/-- The state the scan writes when a pair wins: its person, its overlap,
its squared distance, its person confidence. -/
def mkState (p : Detection) (o d : ℚ) : MatchState := ⟨some p, o, some d, p.confidence⟩

lemma matchStep_none {W H : ℚ} {s : MatchState} {pc : Detection × Detection}
    (h : overlapOf W H pc.1 pc.2 = none) : matchStep W H s pc = s := by
  unfold matchStep
  rw [h]

lemma matchStep_some {W H : ℚ} {s : MatchState} {pc : Detection × Detection} {v : ℚ}
    (h : overlapOf W H pc.1 pc.2 = some v) :
    matchStep W H s pc =
      (if matchImproves v (calculateCenterDistanceSq pc.1 pc.2) pc.1.confidence s then
        mkState pc.1 v (calculateCenterDistanceSq pc.1 pc.2)
      else s) := by
  unfold matchStep mkState
  rw [h]

lemma matchStep_some_pair {W H : ℚ} {s : MatchState} {p c : Detection} {v : ℚ}
    (h : overlapOf W H p c = some v) :
    matchStep W H s (p, c) =
      (if matchImproves v (calculateCenterDistanceSq p c) p.confidence s then
        mkState p v (calculateCenterDistanceSq p c)
      else s) := by
  unfold matchStep mkState
  rw [show overlapOf W H (p, c).1 (p, c).2 = some v from h]

/-- Person box of the containment scenario: center (0.5,0.5), size
0.2 x 0.2, confidence 0.95. -/
def c7person : Detection := ⟨95/100, ⟨1/2, 1/2, 1/5, 1/5⟩⟩

/-- Chair box of the containment scenario: center (0.5,0.5), size
0.25 x 0.25, confidence 0.9; it fully contains the person box. -/
def c7chair : Detection := ⟨9/10, ⟨1/2, 1/2, 1/4, 1/4⟩⟩

lemma foldl_matchStep_overlap_le {W H bound : ℚ} :
    ∀ l : List (Detection × Detection),
      (∀ pc ∈ l, ∀ v : ℚ, overlapOf W H pc.1 pc.2 = some v → v ≤ bound) →
      ∀ s : MatchState, s.bestOverlap ≤ bound →
      (l.foldl (matchStep W H) s).bestOverlap ≤ bound := by
  intro l
  induction l with
  | nil => intro _ s hs; simpa using hs
  | cons pc rest ih =>
      intro h s hs
      have hstep : (matchStep W H s pc).bestOverlap ≤ bound := by
        rcases ho : overlapOf W H pc.1 pc.2 with _ | v
        · rw [matchStep_none ho]
          exact hs
        · rw [matchStep_some ho]
          by_cases him : matchImproves v (calculateCenterDistanceSq pc.1 pc.2)
              pc.1.confidence s
          · rw [if_pos him]
            exact h pc (by simp) v ho
          · rw [if_neg him]
            exact hs
      exact ih (fun pc2 h2 => h pc2 (by simp [h2])) _ hstep

lemma c7person_pixel : convertToPixelCoords c7person.bbox 1000 1000 =
    ⟨400, 400, 600, 600, 500, 500, 200, 200⟩ := by
  norm_num [convertToPixelCoords, c7person, round_eq]

lemma c7chair_pixel : convertToPixelCoords c7chair.bbox 1000 1000 =
    ⟨375, 375, 625, 625, 500, 500, 250, 250⟩ := by
  norm_num [convertToPixelCoords, c7chair, round_eq]

lemma c7overlap : overlapOf 1000 1000 c7person c7chair = some 1 := by
  rw [overlapOf, c7person_pixel, c7chair_pixel]
  norm_num [calculateOverlap]

/-- C7. The matcher's overlap is directional: it is intersection over the
area of the FIRST (person) box whenever that area is nonzero.  A person
box entirely contained in a larger chair box scores overlap 1.0: for
person (0.5,0.5,0.2,0.2) and chair (0.5,0.5,0.25,0.25) at image size
1000x1000 the overlap is exactly 1 and the matcher reports a qualifying
winner.  And when no (person, chair) pair has overlap strictly above the
0.1 minimum, the matcher reports no winner. -/
theorem matcher_overlap_directional :
    (∀ p c : PixelCoords, (p.x2 - p.x1) * (p.y2 - p.y1) ≠ 0 →
      calculateOverlap p c =
        some (((max 0 (min p.x2 c.x2 - max p.x1 c.x1) *
            max 0 (min p.y2 c.y2 - max p.y1 c.y1) : ℤ) : ℚ) /
          (((p.x2 - p.x1) * (p.y2 - p.y1) : ℤ) : ℚ))) ∧
    (overlapOf 1000 1000 c7person c7chair = some 1 ∧
      matchQualifies (findBestMatch [c7person] [c7chair] 1000 1000) = true) ∧
    (∀ (persons chairs : List Detection) (W H : ℚ),
      (∀ p ∈ persons, ∀ c ∈ chairs, ∀ v : ℚ, overlapOf W H p c = some v → v ≤ 1/10) →
      matchQualifies (findBestMatch persons chairs W H) = false) := by
  refine ⟨?_, ⟨c7overlap, ?_⟩, ?_⟩
  · intro p c h
    simp [calculateOverlap, h]
  · have him : matchImproves 1 (calculateCenterDistanceSq c7person c7chair)
        c7person.confidence matchInit :=
      Or.inl (by norm_num [matchInit])
    have hfold : findBestMatch [c7person] [c7chair] 1000 1000 =
        ⟨some c7person, 1, some (calculateCenterDistanceSq c7person c7chair),
          c7person.confidence⟩ := by
      unfold findBestMatch
      rw [show ([c7person].product [c7chair]) = [(c7person, c7chair)] from rfl]
      simp only [List.foldl_cons, List.foldl_nil]
      rw [matchStep_some_pair c7overlap, if_pos him]
      rfl
    rw [hfold]
    norm_num [matchQualifies]
  · intro persons chairs W H h
    have hle : (findBestMatch persons chairs W H).bestOverlap ≤ 1/10 := by
      apply foldl_matchStep_overlap_le
      · intro pc hpc v hv
        obtain ⟨p, c⟩ := pc
        have hmem := List.mem_product.mp hpc
        exact h p hmem.1 c hmem.2 v hv
      · norm_num [matchInit]
    unfold matchQualifies
    have hdec : decide ((findBestMatch persons chairs W H).bestOverlap > 1/10) = false := by
      rw [decide_eq_false_iff_not]
      exact not_lt.mpr hle
    rw [hdec, Bool.and_false]

lemma distLt_of_lt {d1 d2 : ℚ} {sd : Option ℚ} (h : d1 < d2)
    (h2 : distLt d2 sd = true) : distLt d1 sd = true := by
  cases sd with
  | none => rfl
  | some e =>
      simp only [distLt, decide_eq_true_eq] at h2 ⊢
      linarith

lemma distLt_of_lt_eq {d1 d2 : ℚ} {sd : Option ℚ} (h : d1 < d2)
    (h2 : distEq d2 sd = true) : distLt d1 sd = true := by
  cases sd with
  | none => rfl
  | some e =>
      simp only [distEq, decide_eq_true_eq] at h2
      simp only [distLt, decide_eq_true_eq]
      linarith

/-- The strict preference order on the pair keys (overlap, squared
distance, person confidence) that the update test implements against a
previously written state. -/
def keyBeats (k1 k2 : ℚ × ℚ × ℚ) : Prop :=
  k1.1 > k2.1 ∨ (k1.1 = k2.1 ∧ k1.2.1 < k2.2.1) ∨
    (k1.1 = k2.1 ∧ k1.2.1 = k2.2.1 ∧ k1.2.2 > k2.2.2)

lemma keyBeats_irrefl (k : ℚ × ℚ × ℚ) : ¬ keyBeats k k := by
  unfold keyBeats
  rintro (h | ⟨_, h⟩ | ⟨_, _, h⟩) <;> exact absurd h (lt_irrefl _)

lemma keyBeats_asymm {k1 k2 : ℚ × ℚ × ℚ} (h : keyBeats k1 k2) : ¬ keyBeats k2 k1 := by
  unfold keyBeats at h ⊢
  rcases h with h | ⟨he, h⟩ | ⟨he, hd, h⟩ <;>
    rintro (h2 | ⟨he2, h2⟩ | ⟨he2, hd2, h2⟩) <;> linarith

lemma keyBeats_tri (k1 k2 : ℚ × ℚ × ℚ) : keyBeats k1 k2 ∨ keyBeats k2 k1 ∨ k1 = k2 := by
  obtain ⟨o1, d1, c1⟩ := k1
  obtain ⟨o2, d2, c2⟩ := k2
  unfold keyBeats
  rcases lt_trichotomy o1 o2 with ho | ho | ho
  · exact Or.inr (Or.inl (Or.inl ho))
  · rcases lt_trichotomy d1 d2 with hd | hd | hd
    · exact Or.inl (Or.inr (Or.inl ⟨ho, hd⟩))
    · rcases lt_trichotomy c1 c2 with hc | hc | hc
      · exact Or.inr (Or.inl (Or.inr (Or.inr ⟨ho.symm, hd.symm, hc⟩)))
      · subst ho; subst hd; subst hc; exact Or.inr (Or.inr rfl)
      · exact Or.inl (Or.inr (Or.inr ⟨ho, hd, hc⟩))
    · exact Or.inr (Or.inl (Or.inr (Or.inl ⟨ho.symm, hd⟩)))
  · exact Or.inl (Or.inl ho)

lemma matchImproves_mkState {o d c o2 d2 : ℚ} {p : Detection} :
    matchImproves o d c (mkState p o2 d2) ↔ keyBeats (o, d, c) (o2, d2, p.confidence) := by
  unfold matchImproves mkState keyBeats distLt distEq
  simp

lemma matchImproves_trans {o1 d1 c1 o2 d2 c2 : ℚ} {s : MatchState}
    (h12 : keyBeats (o1, d1, c1) (o2, d2, c2)) (h2s : matchImproves o2 d2 c2 s) :
    matchImproves o1 d1 c1 s := by
  unfold keyBeats at h12
  simp only at h12
  unfold matchImproves at h2s ⊢
  rcases h12 with ho | ⟨ho, hd⟩ | ⟨ho, hd, hc⟩
  · rcases h2s with h | ⟨h, _⟩ | ⟨h, _, _⟩ <;> exact Or.inl (by linarith)
  · rcases h2s with h | ⟨h, hl⟩ | ⟨h, he, _⟩
    · exact Or.inl (by linarith)
    · exact Or.inr (Or.inl ⟨by linarith, distLt_of_lt hd hl⟩)
    · exact Or.inr (Or.inl ⟨by linarith, distLt_of_lt_eq hd he⟩)
  · rcases h2s with h | ⟨h, hl⟩ | ⟨h, he, hcc⟩
    · exact Or.inl (by linarith)
    · exact Or.inr (Or.inl ⟨by linarith, hd ▸ hl⟩)
    · exact Or.inr (Or.inr ⟨by linarith, hd ▸ he, by linarith⟩)

lemma matchStep_comm {W H : ℚ} (x y : Detection × Detection)
    (hxy : ∀ ox oy : ℚ, overlapOf W H x.1 x.2 = some ox → overlapOf W H y.1 y.2 = some oy →
      ox = oy → calculateCenterDistanceSq x.1 x.2 = calculateCenterDistanceSq y.1 y.2 →
      x.1.confidence = y.1.confidence → x.1 = y.1)
    (s : MatchState) :
    matchStep W H (matchStep W H s x) y = matchStep W H (matchStep W H s y) x := by
  rcases hox : overlapOf W H x.1 x.2 with _ | ox
  · rw [matchStep_none hox, matchStep_none hox]
  · rcases hoy : overlapOf W H y.1 y.2 with _ | oy
    · rw [matchStep_none hoy, matchStep_none hoy]
    · have hxs : matchStep W H s x =
          (if matchImproves ox (calculateCenterDistanceSq x.1 x.2) x.1.confidence s then
            mkState x.1 ox (calculateCenterDistanceSq x.1 x.2) else s) := matchStep_some hox
      have hys : matchStep W H s y =
          (if matchImproves oy (calculateCenterDistanceSq y.1 y.2) y.1.confidence s then
            mkState y.1 oy (calculateCenterDistanceSq y.1 y.2) else s) := matchStep_some hoy
      rcases keyBeats_tri (ox, calculateCenterDistanceSq x.1 x.2, x.1.confidence)
          (oy, calculateCenterDistanceSq y.1 y.2, y.1.confidence) with hbt | hbt | heqk
      · have hnyx : ¬ matchImproves oy (calculateCenterDistanceSq y.1 y.2) y.1.confidence
            (mkState x.1 ox (calculateCenterDistanceSq x.1 x.2)) := by
          rw [matchImproves_mkState]
          exact keyBeats_asymm hbt
        have hxyk : matchImproves ox (calculateCenterDistanceSq x.1 x.2) x.1.confidence
            (mkState y.1 oy (calculateCenterDistanceSq y.1 y.2)) := by
          rw [matchImproves_mkState]
          exact hbt
        by_cases h2 : matchImproves oy (calculateCenterDistanceSq y.1 y.2) y.1.confidence s
        · have h1 : matchImproves ox (calculateCenterDistanceSq x.1 x.2) x.1.confidence s :=
            matchImproves_trans hbt h2
          rw [hxs, if_pos h1, matchStep_some hoy, if_neg hnyx, hys, if_pos h2,
            matchStep_some hox, if_pos hxyk]
        · by_cases h1 : matchImproves ox (calculateCenterDistanceSq x.1 x.2) x.1.confidence s
          · rw [hxs, if_pos h1, matchStep_some hoy, if_neg hnyx, hys, if_neg h2,
              matchStep_some hox, if_pos h1]
          · rw [hxs, if_neg h1, hys, if_neg h2, hxs, if_neg h1]
      · have hnxy : ¬ matchImproves ox (calculateCenterDistanceSq x.1 x.2) x.1.confidence
            (mkState y.1 oy (calculateCenterDistanceSq y.1 y.2)) := by
          rw [matchImproves_mkState]
          exact keyBeats_asymm hbt
        have hyxk : matchImproves oy (calculateCenterDistanceSq y.1 y.2) y.1.confidence
            (mkState x.1 ox (calculateCenterDistanceSq x.1 x.2)) := by
          rw [matchImproves_mkState]
          exact hbt
        by_cases h1 : matchImproves ox (calculateCenterDistanceSq x.1 x.2) x.1.confidence s
        · have h2 : matchImproves oy (calculateCenterDistanceSq y.1 y.2) y.1.confidence s :=
            matchImproves_trans hbt h1
          rw [hxs, if_pos h1, matchStep_some hoy, if_pos hyxk, hys, if_pos h2,
            matchStep_some hox, if_neg hnxy]
        · by_cases h2 : matchImproves oy (calculateCenterDistanceSq y.1 y.2) y.1.confidence s
          · rw [hxs, if_neg h1, hys, if_pos h2, matchStep_some hox, if_neg hnxy]
          · rw [hxs, if_neg h1, hys, if_neg h2, hxs, if_neg h1]
      · have hcomp := heqk
        rw [Prod.mk.injEq, Prod.mk.injEq] at hcomp
        obtain ⟨ho, hd, hcf⟩ := hcomp
        have hpe : x.1 = y.1 := hxy ox oy hox hoy ho hd hcf
        have hstates : mkState x.1 ox (calculateCenterDistanceSq x.1 x.2) =
            mkState y.1 oy (calculateCenterDistanceSq y.1 y.2) := by
          rw [ho, hd, hpe]
        have hnyx : ¬ matchImproves oy (calculateCenterDistanceSq y.1 y.2) y.1.confidence
            (mkState x.1 ox (calculateCenterDistanceSq x.1 x.2)) := by
          rw [matchImproves_mkState]
          have hsymm : (oy, calculateCenterDistanceSq y.1 y.2, y.1.confidence) =
              (ox, calculateCenterDistanceSq x.1 x.2, x.1.confidence) := heqk.symm
          rw [hsymm]
          exact keyBeats_irrefl _
        have hnxy : ¬ matchImproves ox (calculateCenterDistanceSq x.1 x.2) x.1.confidence
            (mkState y.1 oy (calculateCenterDistanceSq y.1 y.2)) := by
          rw [matchImproves_mkState, heqk]
          exact keyBeats_irrefl _
        by_cases h1 : matchImproves ox (calculateCenterDistanceSq x.1 x.2) x.1.confidence s
        · have h2 : matchImproves oy (calculateCenterDistanceSq y.1 y.2) y.1.confidence s := by
            rwa [← ho, ← hd, ← hcf]
          rw [hxs, if_pos h1, matchStep_some hoy, if_neg hnyx, hys, if_pos h2,
            matchStep_some hox, if_neg hnxy, hstates]
        · have h2 : ¬ matchImproves oy (calculateCenterDistanceSq y.1 y.2) y.1.confidence s := by
            rwa [← ho, ← hd, ← hcf]
          rw [hxs, if_neg h1, hys, if_neg h2, hxs, if_neg h1]

/-- C8 (amended). The matcher is deterministic and, in the absence of full
ties, order-independent: permuting the persons list and the chairs list
does not change the final scan state provided no two distinct pairs agree
simultaneously on overlap, center distance and person confidence.  (With
such a tie the scan keeps the first-encountered pair, so permutations can
change the winner; see the counterexample.) -/
theorem matcher_perm_invariant_of_no_ties
    (persons persons2 chairs chairs2 : List Detection) (W H : ℚ)
    (hp : persons.Perm persons2) (hc : chairs.Perm chairs2)
    (hkeys : ∀ p1 ∈ persons, ∀ c1 ∈ chairs, ∀ p2 ∈ persons, ∀ c2 ∈ chairs,
      ∀ o1 o2 : ℚ, overlapOf W H p1 c1 = some o1 → overlapOf W H p2 c2 = some o2 →
        o1 = o2 → calculateCenterDistanceSq p1 c1 = calculateCenterDistanceSq p2 c2 →
        p1.confidence = p2.confidence → p1 = p2) :
    findBestMatch persons chairs W H = findBestMatch persons2 chairs2 W H := by
  unfold findBestMatch
  have hperm : (persons.product chairs).Perm (persons2.product chairs2) :=
    List.Perm.product hp hc
  refine hperm.foldl_eq' ?_ matchInit
  intro a ha b hb z
  refine matchStep_comm a b ?_ z
  intro ox oy h1 h2 ho hd hcf
  obtain ⟨a1, a2⟩ := a
  obtain ⟨b1, b2⟩ := b
  have hma := List.mem_product.mp ha
  have hmb := List.mem_product.mp hb
  exact hkeys a1 hma.1 a2 hma.2 b1 hmb.1 b2 hmb.2 ox oy h1 h2 ho hd hcf

/-- C8 (witness). The amended theorem instantiated at singleton lists (the
identity permutation), where the no-tie hypothesis holds trivially. -/
theorem matcher_perm_invariant_witness :
    findBestMatch [c7person] [c7chair] 1000 1000 =
      findBestMatch [c7person] [c7chair] 1000 1000 :=
  matcher_perm_invariant_of_no_ties [c7person] [c7person] [c7chair] [c7chair] 1000 1000
    (List.Perm.refl _) (List.Perm.refl _)
    (by
      intro p1 h1 c1 h2 p2 h3 c2 h4 o1 o2 _ _ _ _ _
      simp only [List.mem_singleton] at h1 h3
      rw [h1, h3])

/-- Left person of the tie counterexample: center (0.3,0.5), size 0.2 x
0.2, confidence 0.8. -/
def c8personA : Detection := ⟨8/10, ⟨3/10, 1/2, 1/5, 1/5⟩⟩

/-- Right person, mirror image of the left one: center (0.7,0.5), same
size and confidence. -/
def c8personB : Detection := ⟨8/10, ⟨7/10, 1/2, 1/5, 1/5⟩⟩

/-- The chair both persons overlap equally: center (0.5,0.5), size 0.4 x
0.4. -/
def c8chair : Detection := ⟨9/10, ⟨1/2, 1/2, 2/5, 2/5⟩⟩

lemma c8personA_pixel : convertToPixelCoords c8personA.bbox 1000 1000 =
    ⟨200, 400, 400, 600, 300, 500, 200, 200⟩ := by
  norm_num [convertToPixelCoords, c8personA, round_eq]

lemma c8personB_pixel : convertToPixelCoords c8personB.bbox 1000 1000 =
    ⟨600, 400, 800, 600, 700, 500, 200, 200⟩ := by
  norm_num [convertToPixelCoords, c8personB, round_eq]

lemma c8chair_pixel : convertToPixelCoords c8chair.bbox 1000 1000 =
    ⟨300, 300, 700, 700, 500, 500, 400, 400⟩ := by
  norm_num [convertToPixelCoords, c8chair, round_eq]

lemma c8overlapA : overlapOf 1000 1000 c8personA c8chair = some (1/2) := by
  rw [overlapOf, c8personA_pixel, c8chair_pixel]
  norm_num [calculateOverlap]

lemma c8overlapB : overlapOf 1000 1000 c8personB c8chair = some (1/2) := by
  rw [overlapOf, c8personB_pixel, c8chair_pixel]
  norm_num [calculateOverlap]

lemma c8scanAB : findBestMatch [c8personA, c8personB] [c8chair] 1000 1000 =
    mkState c8personA (1/2) (calculateCenterDistanceSq c8personA c8chair) := by
  have himA : matchImproves (1/2) (calculateCenterDistanceSq c8personA c8chair)
      c8personA.confidence matchInit :=
    Or.inl (by norm_num [matchInit])
  have hdAB : calculateCenterDistanceSq c8personB c8chair =
      calculateCenterDistanceSq c8personA c8chair := by
    norm_num [calculateCenterDistanceSq, c8personA, c8personB, c8chair]
  have hnB : ¬ matchImproves (1/2) (calculateCenterDistanceSq c8personB c8chair)
      c8personB.confidence (mkState c8personA (1/2)
        (calculateCenterDistanceSq c8personA c8chair)) := by
    rw [hdAB, matchImproves_mkState]
    rw [show c8personB.confidence = c8personA.confidence from rfl]
    exact keyBeats_irrefl _
  unfold findBestMatch
  rw [show ([c8personA, c8personB].product [c8chair]) =
    [(c8personA, c8chair), (c8personB, c8chair)] from rfl]
  simp only [List.foldl_cons, List.foldl_nil]
  rw [matchStep_some_pair c8overlapA, if_pos himA,
    matchStep_some_pair c8overlapB, if_neg hnB]

lemma c8scanBA : findBestMatch [c8personB, c8personA] [c8chair] 1000 1000 =
    mkState c8personB (1/2) (calculateCenterDistanceSq c8personB c8chair) := by
  have himB : matchImproves (1/2) (calculateCenterDistanceSq c8personB c8chair)
      c8personB.confidence matchInit :=
    Or.inl (by norm_num [matchInit])
  have hdAB : calculateCenterDistanceSq c8personA c8chair =
      calculateCenterDistanceSq c8personB c8chair := by
    norm_num [calculateCenterDistanceSq, c8personA, c8personB, c8chair]
  have hnA : ¬ matchImproves (1/2) (calculateCenterDistanceSq c8personA c8chair)
      c8personA.confidence (mkState c8personB (1/2)
        (calculateCenterDistanceSq c8personB c8chair)) := by
    rw [hdAB, matchImproves_mkState]
    rw [show c8personA.confidence = c8personB.confidence from rfl]
    exact keyBeats_irrefl _
  unfold findBestMatch
  rw [show ([c8personB, c8personA].product [c8chair]) =
    [(c8personB, c8chair), (c8personA, c8chair)] from rfl]
  simp only [List.foldl_cons, List.foldl_nil]
  rw [matchStep_some_pair c8overlapB, if_pos himB,
    matchStep_some_pair c8overlapA, if_neg hnA]

/-- C8 (counterexample). Two mirror-image persons tie with the same chair
on overlap, distance and confidence; swapping their order in the persons
list changes which person the matcher returns, so the matcher is not
order-independent as claimed. -/
theorem matcher_order_counterexample :
    (findBestMatch [c8personA, c8personB] [c8chair] 1000 1000).bestPerson =
        some c8personA ∧
    (findBestMatch [c8personB, c8personA] [c8chair] 1000 1000).bestPerson =
        some c8personB ∧
    c8personA ≠ c8personB := by
  refine ⟨?_, ?_, ?_⟩
  · rw [c8scanAB]; rfl
  · rw [c8scanBA]; rfl
  · intro h
    have := congrArg (fun d => d.bbox.x_center) h
    norm_num [c8personA, c8personB] at this

/-- WinnerDetectionResult of modelLoader.ts: the structured value
detectWinner always returns. -/
structure WinnerDetectionResult where
  success : Bool
  winnerImage : Option String
  fullImage : String
  confidence : Option ℚ
  attempts : ℕ
deriving DecidableEq

/-- What one attempt of the winner-detection loop observes from its
collaborators (camera capture, image sizing, inference and decode
combined): an exception before a picture was captured, a null capture, an
exception after the capture (its uri already seen), or a completed decode
carrying the captured uri, the image dimensions and the two post-NMS
detection lists. -/
inductive AttemptOutcome where
  | throwEarly : AttemptOutcome
  | nullCapture : AttemptOutcome
  | throwLate : String → AttemptOutcome
  | decoded : String → ℚ → ℚ → List Detection → List Detection → AttemptOutcome
deriving DecidableEq

/-- The retry loop of detectWinner (source lines 855-1001), fuelled by the
number of remaining attempts: firstCapturedImage is recorded only on
attempt 1; a zero-person or zero-chair decode on the last attempt returns
firstCapturedImage || picture.uri; a qualifying match returns the cropped
winner; every other outcome falls through to the next attempt, and running
out of attempts returns firstCapturedImage || the empty string. -/
def detectWinnerGo (maxRetries : ℕ) (b : ℕ → AttemptOutcome)
    (crop : String → BBox → String) :
    ℕ → ℕ → Option String → WinnerDetectionResult
  | 0, _, firstCap => ⟨false, none, firstCap.getD "", none, maxRetries⟩
  | fuel + 1, attempt, firstCap =>
      match b attempt with
      | .throwEarly => detectWinnerGo maxRetries b crop fuel (attempt + 1) firstCap
      | .nullCapture => detectWinnerGo maxRetries b crop fuel (attempt + 1) firstCap
      | .throwLate uri =>
          detectWinnerGo maxRetries b crop fuel (attempt + 1)
            (if attempt = 1 then some uri else firstCap)
      | .decoded uri W H persons chairs =>
          let fc := if attempt = 1 then some uri else firstCap
          if persons.length = 0 then
            (if attempt = maxRetries then ⟨false, none, fc.getD uri, none, attempt⟩
            else detectWinnerGo maxRetries b crop fuel (attempt + 1) fc)
          else if chairs.length = 0 then
            (if attempt = maxRetries then ⟨false, none, fc.getD uri, none, attempt⟩
            else detectWinnerGo maxRetries b crop fuel (attempt + 1) fc)
          else
            match (findBestMatch persons chairs W H).bestPerson with
            | some bp =>
                if (findBestMatch persons chairs W H).bestOverlap > 1/10 then
                  ⟨true, some (crop uri bp.bbox), uri,
                    some (findBestMatch persons chairs W H).bestConfidence, attempt⟩
                else detectWinnerGo maxRetries b crop fuel (attempt + 1) fc
            | none => detectWinnerGo maxRetries b crop fuel (attempt + 1) fc

/-- detectWinner of modelLoader.ts: run up to maxRetries attempts starting
at attempt 1 with no image recorded. -/
def detectWinner (b : ℕ → AttemptOutcome) (crop : String → BBox → String)
    (maxRetries : ℕ) : WinnerDetectionResult :=
  detectWinnerGo maxRetries b crop maxRetries 1 none

/-- The uri an attempt captured, if any. -/
def capturedOf : AttemptOutcome → Option String
  | .throwLate uri => some uri
  | .decoded uri _ _ _ _ => some uri
  | _ => none

/-- An attempt outcome that cannot produce a success return: anything but
a decode with nonempty persons, nonempty chairs and a qualifying match. -/
def noQualify : AttemptOutcome → Prop
  | .decoded _ W H persons chairs =>
      persons = [] ∨ chairs = [] ∨
        matchQualifies (findBestMatch persons chairs W H) = false
  | _ => True

/-- The fullImage detectWinner reports when every attempt fails: the
attempt-1 capture when there was one; otherwise the last attempt's uri
when that attempt decoded zero persons or zero chairs, and the empty
string in every other case. -/
def expectedFallbackImage (b : ℕ → AttemptOutcome) (maxRetries : ℕ) : String :=
  match capturedOf (b 1) with
  | some u => u
  | none =>
      match b maxRetries with
      | .decoded uri _ _ persons chairs =>
          if persons.length = 0 ∨ chairs.length = 0 then uri else ""
      | _ => ""

lemma go_zero (maxRetries : ℕ) (b : ℕ → AttemptOutcome) (crop : String → BBox → String)
    (attempt : ℕ) (fc : Option String) :
    detectWinnerGo maxRetries b crop 0 attempt fc =
      ⟨false, none, fc.getD "", none, maxRetries⟩ := rfl

lemma go_throwEarly {b : ℕ → AttemptOutcome} {attempt : ℕ}
    (hb : b attempt = .throwEarly) (maxRetries : ℕ) (crop : String → BBox → String)
    (fuel : ℕ) (fc : Option String) :
    detectWinnerGo maxRetries b crop (fuel + 1) attempt fc =
      detectWinnerGo maxRetries b crop fuel (attempt + 1) fc := by
  conv_lhs => unfold detectWinnerGo
  rw [hb]

lemma go_nullCapture {b : ℕ → AttemptOutcome} {attempt : ℕ}
    (hb : b attempt = .nullCapture) (maxRetries : ℕ) (crop : String → BBox → String)
    (fuel : ℕ) (fc : Option String) :
    detectWinnerGo maxRetries b crop (fuel + 1) attempt fc =
      detectWinnerGo maxRetries b crop fuel (attempt + 1) fc := by
  conv_lhs => unfold detectWinnerGo
  rw [hb]

lemma go_throwLate {b : ℕ → AttemptOutcome} {attempt : ℕ} {uri : String}
    (hb : b attempt = .throwLate uri) (maxRetries : ℕ) (crop : String → BBox → String)
    (fuel : ℕ) (fc : Option String) :
    detectWinnerGo maxRetries b crop (fuel + 1) attempt fc =
      detectWinnerGo maxRetries b crop fuel (attempt + 1)
        (if attempt = 1 then some uri else fc) := by
  conv_lhs => unfold detectWinnerGo
  rw [hb]

lemma go_decoded {b : ℕ → AttemptOutcome} {attempt : ℕ} {uri : String} {W H : ℚ}
    {persons chairs : List Detection}
    (hb : b attempt = .decoded uri W H persons chairs) (maxRetries : ℕ)
    (crop : String → BBox → String) (fuel : ℕ) (fc : Option String) :
    detectWinnerGo maxRetries b crop (fuel + 1) attempt fc =
      (if persons.length = 0 then
        (if attempt = maxRetries then
          ⟨false, none, (if attempt = 1 then some uri else fc).getD uri, none, attempt⟩
        else detectWinnerGo maxRetries b crop fuel (attempt + 1)
          (if attempt = 1 then some uri else fc))
      else if chairs.length = 0 then
        (if attempt = maxRetries then
          ⟨false, none, (if attempt = 1 then some uri else fc).getD uri, none, attempt⟩
        else detectWinnerGo maxRetries b crop fuel (attempt + 1)
          (if attempt = 1 then some uri else fc))
      else
        match (findBestMatch persons chairs W H).bestPerson with
        | some bp =>
            if (findBestMatch persons chairs W H).bestOverlap > 1/10 then
              ⟨true, some (crop uri bp.bbox), uri,
                some (findBestMatch persons chairs W H).bestConfidence, attempt⟩
            else detectWinnerGo maxRetries b crop fuel (attempt + 1)
              (if attempt = 1 then some uri else fc)
        | none => detectWinnerGo maxRetries b crop fuel (attempt + 1)
            (if attempt = 1 then some uri else fc)) := by
  conv_lhs => unfold detectWinnerGo
  rw [hb]

lemma fc_keep {b : ℕ → AttemptOutcome} {attempt : ℕ} {fc : Option String}
    (hfc : fc = if attempt = 1 then none else capturedOf (b 1))
    (hnone : capturedOf (b attempt) = none) : fc = capturedOf (b 1) := by
  by_cases ha : attempt = 1
  · rw [hfc, if_pos ha]
    rw [ha] at hnone
    exact hnone.symm
  · rw [hfc, if_neg ha]

lemma fc_capture {b : ℕ → AttemptOutcome} {attempt : ℕ} {fc : Option String} {uri : String}
    (hfc : fc = if attempt = 1 then none else capturedOf (b 1))
    (hsome : capturedOf (b attempt) = some uri) :
    (if attempt = 1 then some uri else fc) = capturedOf (b 1) := by
  by_cases ha : attempt = 1
  · rw [if_pos ha]
    rw [ha] at hsome
    exact hsome.symm
  · rw [if_neg ha, hfc, if_neg ha]

lemma expected_some {b : ℕ → AttemptOutcome} {maxRetries : ℕ} {u : String}
    (h : capturedOf (b 1) = some u) : expectedFallbackImage b maxRetries = u := by
  unfold expectedFallbackImage
  rw [h]

lemma expected_none {b : ℕ → AttemptOutcome} {maxRetries : ℕ}
    (h : capturedOf (b 1) = none) :
    expectedFallbackImage b maxRetries =
      (match b maxRetries with
      | .decoded uri _ _ persons chairs =>
          if persons.length = 0 ∨ chairs.length = 0 then uri else ""
      | _ => "") := by
  unfold expectedFallbackImage
  rw [h]

lemma detectWinnerGo_spec {maxRetries : ℕ} {b : ℕ → AttemptOutcome}
    {crop : String → BBox → String}
    (hq : ∀ a, 1 ≤ a → a ≤ maxRetries → noQualify (b a)) :
    ∀ fuel, 1 ≤ fuel → ∀ attempt fc, 1 ≤ attempt → attempt + fuel = maxRetries + 1 →
      fc = (if attempt = 1 then none else capturedOf (b 1)) →
      detectWinnerGo maxRetries b crop fuel attempt fc =
        ⟨false, none, expectedFallbackImage b maxRetries, none, maxRetries⟩ := by
  intro fuel
  induction fuel with
  | zero => intro h; exact absurd h (by omega)
  | succ n ih =>
      intro _ attempt fc h1 hsum hfc
      have hle : attempt ≤ maxRetries := by omega
      rcases hb : b attempt with _ | _ | uri | ⟨uri, W, H, persons, chairs⟩
      · rw [go_throwEarly hb]
        have hkeep : fc = capturedOf (b 1) := fc_keep hfc (by rw [hb]; rfl)
        cases n with
        | zero =>
            have hlast : attempt = maxRetries := by omega
            subst hlast
            rw [go_zero, hkeep]
            cases hcap : capturedOf (b 1) with
            | some u => rw [expected_some hcap]; rfl
            | none => rw [expected_none hcap, hb]; rfl
        | succ m =>
            exact ih (by omega) (attempt + 1) fc (by omega) (by omega)
              (by
                have h2 : attempt + 1 ≠ 1 := by omega
                rw [if_neg h2]
                exact hkeep)
      · rw [go_nullCapture hb]
        have hkeep : fc = capturedOf (b 1) := fc_keep hfc (by rw [hb]; rfl)
        cases n with
        | zero =>
            have hlast : attempt = maxRetries := by omega
            subst hlast
            rw [go_zero, hkeep]
            cases hcap : capturedOf (b 1) with
            | some u => rw [expected_some hcap]; rfl
            | none => rw [expected_none hcap, hb]; rfl
        | succ m =>
            exact ih (by omega) (attempt + 1) fc (by omega) (by omega)
              (by
                have h2 : attempt + 1 ≠ 1 := by omega
                rw [if_neg h2]
                exact hkeep)
      · rw [go_throwLate hb]
        have hcapt : (if attempt = 1 then some uri else fc) = capturedOf (b 1) :=
          fc_capture hfc (by rw [hb]; rfl)
        cases n with
        | zero =>
            have hlast : attempt = maxRetries := by omega
            subst hlast
            rw [go_zero, hcapt]
            cases hcap : capturedOf (b 1) with
            | some u => rw [expected_some hcap]; rfl
            | none => rw [expected_none hcap, hb]; rfl
        | succ m =>
            exact ih (by omega) (attempt + 1) (if attempt = 1 then some uri else fc)
              (by omega) (by omega) (by
                have h2 : attempt + 1 ≠ 1 := by omega
                rw [if_neg h2]
                exact hcapt)
      · rw [go_decoded hb]
        have hcapt : (if attempt = 1 then some uri else fc) = capturedOf (b 1) :=
          fc_capture hfc (by rw [hb]; rfl)
        have hnq : noQualify (b attempt) := hq attempt h1 hle
        rw [hb] at hnq
        simp only [noQualify] at hnq
        by_cases hp0 : persons.length = 0
        · rw [if_pos hp0]
          cases n with
          | zero =>
              have hlast : attempt = maxRetries := by omega
              subst hlast
              rw [if_pos rfl, hcapt]
              cases hcap : capturedOf (b 1) with
              | some u => rw [expected_some hcap]; rfl
              | none =>
                  rw [expected_none hcap, hb]
                  simp [hp0]
          | succ m =>
              rw [if_neg (by omega)]
              exact ih (by omega) (attempt + 1) (if attempt = 1 then some uri else fc)
                (by omega) (by omega) (by
                have h2 : attempt + 1 ≠ 1 := by omega
                rw [if_neg h2]
                exact hcapt)
        · rw [if_neg hp0]
          by_cases hc0 : chairs.length = 0
          · rw [if_pos hc0]
            cases n with
            | zero =>
                have hlast : attempt = maxRetries := by omega
                subst hlast
                rw [if_pos rfl, hcapt]
                cases hcap : capturedOf (b 1) with
                | some u => rw [expected_some hcap]; rfl
                | none =>
                    rw [expected_none hcap, hb]
                    simp [hc0]
            | succ m =>
                rw [if_neg (by omega)]
                exact ih (by omega) (attempt + 1) _ (by omega) (by omega)
                  (by
                have h2 : attempt + 1 ≠ 1 := by omega
                rw [if_neg h2]
                exact hcapt)
          · rw [if_neg hc0]
            have hqf : matchQualifies (findBestMatch persons chairs W H) = false := by
              rcases hnq with h | h | h
              · exact absurd (by rw [h]; rfl) hp0
              · exact absurd (by rw [h]; rfl) hc0
              · exact h
            cases hbp : (findBestMatch persons chairs W H).bestPerson with
            | none =>
                simp only [hbp]
                cases n with
                | zero =>
                    have hlast : attempt = maxRetries := by omega
                    subst hlast
                    rw [go_zero, hcapt]
                    cases hcap : capturedOf (b 1) with
                    | some u => rw [expected_some hcap]; rfl
                    | none =>
                        rw [expected_none hcap, hb]
                        simp [hp0, hc0]
                | succ m =>
                    exact ih (by omega) (attempt + 1) (if attempt = 1 then some uri else fc)
                      (by omega) (by omega) (by
                have h2 : attempt + 1 ≠ 1 := by omega
                rw [if_neg h2]
                exact hcapt)
            | some bp =>
                have hov : ¬ ((findBestMatch persons chairs W H).bestOverlap > 1/10) := by
                  unfold matchQualifies at hqf
                  rw [hbp] at hqf
                  simp only [Option.isSome_some, Bool.true_and] at hqf
                  exact of_decide_eq_false hqf
                simp only [hbp]
                rw [if_neg hov]
                cases n with
                | zero =>
                    have hlast : attempt = maxRetries := by omega
                    subst hlast
                    rw [go_zero, hcapt]
                    cases hcap : capturedOf (b 1) with
                    | some u => rw [expected_some hcap]; rfl
                    | none =>
                        rw [expected_none hcap, hb]
                        simp [hp0, hc0]
                | succ m =>
                    exact ih (by omega) (attempt + 1) (if attempt = 1 then some uri else fc)
                      (by omega) (by omega) (by
                have h2 : attempt + 1 ≠ 1 := by omega
                rw [if_neg h2]
                exact hcapt)

/-- C9 (amended). detectWinner always returns a structured result (the
model is a total function: every per-attempt outcome, exceptions included,
is consumed by the loop).  When no attempt yields a qualifying match it
returns success = false with attempts = maxRetries, and fullImage is the
attempt-1 capture when there was one, otherwise the final attempt's uri
when that attempt decoded zero persons or zero chairs, and the empty
string in every other case — with an always-null camera, exactly
{success: false, fullImage: "", attempts: maxRetries}. -/
theorem orchestrator_exhaustion (b : ℕ → AttemptOutcome) (crop : String → BBox → String)
    (maxRetries : ℕ) (h1 : 1 ≤ maxRetries)
    (hq : ∀ a, 1 ≤ a → a ≤ maxRetries → noQualify (b a)) :
    detectWinner b crop maxRetries =
      ⟨false, none, expectedFallbackImage b maxRetries, none, maxRetries⟩ := by
  unfold detectWinner
  exact detectWinnerGo_spec hq maxRetries h1 1 none (by omega) (by omega)
    (by rw [if_pos rfl])

/-- C9 (witness). The exhaustion theorem at a camera that returns null on
every attempt and maxRetries = 3: the result is {success: false,
fullImage: "", attempts: 3}. -/
theorem orchestrator_exhaustion_witness :
    detectWinner (fun _ => .nullCapture) (fun _ _ => "") 3 =
      ⟨false, none, "", none, 3⟩ := by
  have h := orchestrator_exhaustion (fun _ => .nullCapture) (fun _ _ => "") 3
    (by norm_num) (fun a _ _ => by simp [noQualify])
  rw [h]
  rfl

/-- The collaborator behaviour of the fallback counterexample: attempt 1
captures nothing, attempts 2 and 3 capture images X and Y that decode to
zero persons. -/
def c9behavior : ℕ → AttemptOutcome := fun a =>
  if a = 1 then .nullCapture
  else if a = 2 then .decoded "X" 100 100 [] []
  else .decoded "Y" 100 100 [] []

/-- C9 (counterexample). With this behaviour the first captured image
across the attempts is X (attempt 2; attempt 1 captured nothing), yet
after exhausting all 3 attempts detectWinner reports fullImage = Y, the
LAST attempt's image: the source records a first captured image only when
attempt === 1, so the claimed "first captured image" fallback is wrong. -/
theorem orchestrator_firstimage_counterexample :
    capturedOf (c9behavior 1) = none ∧
    capturedOf (c9behavior 2) = some "X" ∧
    detectWinner c9behavior (fun _ _ => "") 3 = ⟨false, none, "Y", none, 3⟩ ∧
    (detectWinner c9behavior (fun _ _ => "") 3).fullImage ≠ "X" := by
  refine ⟨rfl, rfl, rfl, ?_⟩
  intro h
  have h2 : ("Y" : String) = "X" := h
  exact absurd h2 (by decide)

/-- scale = Math.min(targetSize / origWidth, targetSize / origHeight)
(source line 65). -/
def scaleFor (origWidth origHeight : ℕ) : ℚ :=
  min (640 / (origWidth : ℚ)) (640 / (origHeight : ℚ))

/-- newWidth = Math.round(origWidth * scale) (line 66); Math.round rounds
half up, as round on rationals does, and the value is nonnegative. -/
def newWidthFor (origWidth origHeight : ℕ) : ℕ :=
  (round ((origWidth : ℚ) * scaleFor origWidth origHeight)).toNat

/-- newHeight = Math.round(origHeight * scale) (line 67). -/
def newHeightFor (origWidth origHeight : ℕ) : ℕ :=
  (round ((origHeight : ℚ) * scaleFor origWidth origHeight)).toNat

/-- xOffset = Math.floor((finalWidth - newWidth) / 2) (line 91); on these
nonnegative values JS floor division is Nat division. -/
def xOffsetFor (origWidth origHeight : ℕ) : ℕ :=
  (640 - newWidthFor origWidth origHeight) / 2

/-- yOffset = Math.floor((finalHeight - newHeight) / 2) (line 92). -/
def yOffsetFor (origWidth origHeight : ℕ) : ℕ :=
  (640 - newHeightFor origWidth origHeight) / 2

/-- A sequence of indexed writes into a flat buffer, applied in order:
the model of the imperative copy loops. -/
def writeAll (ws : List (ℕ × ℚ)) (f : ℕ → ℚ) : ℕ → ℚ :=
  ws.foldl (fun g iv => Function.update g iv.1 iv.2) f

/-- The three writes the letterbox copy loop performs for pixel
(y, x) = (p.1, p.2) (source lines 95-107): read RGBA bytes at
resizedIndex, write r/255, g/255, b/255 at finalIndex, finalIndex+1,
finalIndex+2. -/
def pixelWrites (resized : ℕ → Fin 256) (newWidth xOffset yOffset : ℕ)
    (p : ℕ × ℕ) : List (ℕ × ℚ) :=
  let resizedIndex := (p.1 * newWidth + p.2) * 4
  let finalIndex := ((p.1 + yOffset) * 640 + (p.2 + xOffset)) * 3
  [(finalIndex, ((resized resizedIndex : ℕ) : ℚ) / 255),
   (finalIndex + 1, ((resized (resizedIndex + 1) : ℕ) : ℚ) / 255),
   (finalIndex + 2, ((resized (resizedIndex + 2) : ℕ) : ℚ) / 255)]

/-- The (y, x) pixel pairs the copy loop visits: y outer over newHeight,
x inner over newWidth. -/
def pixelList (newWidth newHeight : ℕ) : List (ℕ × ℕ) :=
  (List.range newHeight).flatMap fun y => (List.range newWidth).map fun x => (y, x)

/-- finalData after the copy loop: a zero-initialized 640*640*3 buffer
with the resized RGB samples written at the centered offsets. -/
def finalDataFor (resized : ℕ → Fin 256) (newWidth newHeight xOffset yOffset : ℕ) :
    ℕ → ℚ :=
  writeAll ((pixelList newWidth newHeight).flatMap
    (pixelWrites resized newWidth xOffset yOffset)) (fun _ => 0)

/-- The writes of the HWC-to-CHW conversion loop (source lines 112-120):
chwData[c*640*640 + h*640 + w] = finalData[h*640*3 + w*3 + c]. -/
def chwWrites (finalD : ℕ → ℚ) : List (ℕ × ℚ) :=
  (List.range 640).flatMap fun h =>
    (List.range 640).flatMap fun w =>
      (List.range 3).map fun c =>
        (c * (640 * 640) + h * 640 + w, finalD (h * (640 * 3) + w * 3 + c))

/-- chwData after the conversion loop: a zero-initialized buffer holding
the CHW relayout of finalData. -/
def chwDataFor (origWidth origHeight : ℕ) (resized : ℕ → Fin 256) : ℕ → ℚ :=
  writeAll (chwWrites (finalDataFor resized
    (newWidthFor origWidth origHeight) (newHeightFor origWidth origHeight)
    (xOffsetFor origWidth origHeight) (yOffsetFor origWidth origHeight)))
    (fun _ => 0)

/-- imageToTensor of modelLoader.ts (lines 58-130), from the decoded
resized RGBA samples: letterbox copy into a zeroed canvas, HWC-to-CHW
relayout, and the fixed [1, 3, 640, 640] shape. -/
def imageToTensor (origWidth origHeight : ℕ) (resized : ℕ → Fin 256) : Tensor :=
  ⟨[1, 3, 640, 640], chwDataFor origWidth origHeight resized⟩

lemma writeAll_not_mem : ∀ (ws : List (ℕ × ℚ)) (f : ℕ → ℚ) (idx : ℕ),
    (∀ p ∈ ws, p.1 ≠ idx) → writeAll ws f idx = f idx := by
  intro ws
  induction ws with
  | nil => intro f idx _; rfl
  | cons iv rest ih =>
      intro f idx h
      show writeAll rest (Function.update f iv.1 iv.2) idx = f idx
      rw [ih _ idx (fun p hp => h p (List.mem_cons_of_mem _ hp))]
      exact Function.update_noteq (fun he => h iv (List.mem_cons_self _ _) he.symm) _ _

lemma writeAll_eq : ∀ (ws : List (ℕ × ℚ)) (f : ℕ → ℚ) (idx : ℕ) (v : ℚ),
    (∀ p ∈ ws, p.1 = idx → p.2 = v) → (∃ p ∈ ws, p.1 = idx) →
    writeAll ws f idx = v := by
  intro ws
  induction ws with
  | nil => intro f idx v _ h2; simp at h2
  | cons iv rest ih =>
      intro f idx v h1 h2
      show writeAll rest (Function.update f iv.1 iv.2) idx = v
      by_cases hex : ∃ p ∈ rest, p.1 = idx
      · exact ih _ idx v (fun p hp => h1 p (List.mem_cons_of_mem _ hp)) hex
      · have hi : iv.1 = idx := by
          rcases h2 with ⟨p, hp, hpi⟩
          rcases List.mem_cons.mp hp with hph | hpm
          · rw [← hph]; exact hpi
          · exact absurd ⟨p, hpm, hpi⟩ hex
        have hu : iv.2 = v := h1 iv (List.mem_cons_self _ _) hi
        rw [writeAll_not_mem rest _ idx (fun p hp hpe => hex ⟨p, hp, hpe⟩)]
        rw [← hi, Function.update_same, hu]

lemma mem_pixelList {newWidth newHeight : ℕ} {p : ℕ × ℕ} :
    p ∈ pixelList newWidth newHeight ↔ p.1 < newHeight ∧ p.2 < newWidth := by
  obtain ⟨y, x⟩ := p
  simp only [pixelList, List.mem_flatMap, List.mem_map, List.mem_range, Prod.mk.injEq]
  constructor
  · rintro ⟨a, ha, b, hb, he1, he2⟩
    exact ⟨he1 ▸ ha, he2 ▸ hb⟩
  · rintro ⟨hy, hx⟩
    exact ⟨y, hy, x, hx, rfl, rfl⟩

lemma mem_pixelWrites {resized : ℕ → Fin 256} {newWidth xOffset yOffset : ℕ}
    {yx : ℕ × ℕ} {p : ℕ × ℚ} :
    p ∈ pixelWrites resized newWidth xOffset yOffset yx ↔
      ∃ c < 3, p = (((yx.1 + yOffset) * 640 + (yx.2 + xOffset)) * 3 + c,
        ((resized ((yx.1 * newWidth + yx.2) * 4 + c) : ℕ) : ℚ) / 255) := by
  simp only [pixelWrites, List.mem_cons, List.not_mem_nil, or_false]
  constructor
  · rintro (h | h | h)
    · exact ⟨0, by omega, by rw [h]; norm_num⟩
    · exact ⟨1, by omega, by rw [h]⟩
    · exact ⟨2, by omega, by rw [h]⟩
  · rintro ⟨c, hc, h⟩
    interval_cases c
    · exact Or.inl (by rw [h]; norm_num)
    · exact Or.inr (Or.inl (by rw [h]))
    · exact Or.inr (Or.inr (by rw [h]))

lemma finalDataFor_eq (resized : ℕ → Fin 256) (newWidth newHeight xOffset yOffset : ℕ)
    (hxb : xOffset + newWidth ≤ 640) (h w c : ℕ) (hh : h < 640) (hw : w < 640)
    (hc : c < 3) :
    finalDataFor resized newWidth newHeight xOffset yOffset (h * (640 * 3) + w * 3 + c) =
      (if yOffset ≤ h ∧ h < yOffset + newHeight ∧ xOffset ≤ w ∧ w < xOffset + newWidth then
        ((resized (((h - yOffset) * newWidth + (w - xOffset)) * 4 + c) : ℕ) : ℚ) / 255
      else 0) := by
  unfold finalDataFor
  by_cases hreg : yOffset ≤ h ∧ h < yOffset + newHeight ∧ xOffset ≤ w ∧ w < xOffset + newWidth
  · rw [if_pos hreg]
    obtain ⟨hy1, hy2, hx1, hx2⟩ := hreg
    apply writeAll_eq
    · rintro ⟨i, v⟩ hp hi
      rw [List.mem_flatMap] at hp
      obtain ⟨yx, hyx, hpw⟩ := hp
      obtain ⟨yb, xb⟩ := mem_pixelList.mp hyx
      obtain ⟨c2, hc2, hpe⟩ := mem_pixelWrites.mp hpw
      rw [Prod.mk.injEq] at hpe
      obtain ⟨hie, hve⟩ := hpe
      rw [hie] at hi
      have hy : yx.1 = h - yOffset := by omega
      have hx : yx.2 = w - xOffset := by omega
      have hcc : c2 = c := by omega
      show v = _
      rw [hve, hy, hx, hcc]
    · refine ⟨((((h - yOffset) + yOffset) * 640 + ((w - xOffset) + xOffset)) * 3 + c,
        ((resized (((h - yOffset) * newWidth + (w - xOffset)) * 4 + c) : ℕ) : ℚ) / 255),
        ?_, ?_⟩
      · rw [List.mem_flatMap]
        refine ⟨(h - yOffset, w - xOffset), mem_pixelList.mpr ⟨by omega, by omega⟩, ?_⟩
        rw [mem_pixelWrites]
        exact ⟨c, hc, rfl⟩
      · show _ = h * (640 * 3) + w * 3 + c
        omega
  · rw [if_neg hreg]
    apply writeAll_not_mem
    rintro ⟨i, v⟩ hp hi
    rw [List.mem_flatMap] at hp
    obtain ⟨yx, hyx, hpw⟩ := hp
    obtain ⟨yb, xb⟩ := mem_pixelList.mp hyx
    obtain ⟨c2, hc2, hpe⟩ := mem_pixelWrites.mp hpw
    rw [Prod.mk.injEq] at hpe
    obtain ⟨hie, _⟩ := hpe
    rw [hie] at hi
    apply hreg
    constructor
    · omega
    constructor
    · omega
    constructor
    · omega
    · omega

lemma mem_chwWrites {finalD : ℕ → ℚ} {p : ℕ × ℚ} :
    p ∈ chwWrites finalD ↔
      ∃ hh < 640, ∃ ww < 640, ∃ cc < 3,
        p = (cc * (640 * 640) + hh * 640 + ww,
          finalD (hh * (640 * 3) + ww * 3 + cc)) := by
  simp only [chwWrites, List.mem_flatMap, List.mem_map, List.mem_range]
  constructor
  · rintro ⟨hh, hhb, ww, wwb, cc, ccb, he⟩
    exact ⟨hh, hhb, ww, wwb, cc, ccb, he.symm⟩
  · rintro ⟨hh, hhb, ww, wwb, cc, ccb, he⟩
    exact ⟨hh, hhb, ww, wwb, cc, ccb, he.symm⟩

lemma chwData_eq (finalD : ℕ → ℚ) (c h w : ℕ) (hc : c < 3) (hh : h < 640)
    (hw : w < 640) :
    writeAll (chwWrites finalD) (fun _ => 0) (c * (640 * 640) + h * 640 + w) =
      finalD (h * (640 * 3) + w * 3 + c) := by
  apply writeAll_eq
  · rintro ⟨i, v⟩ hp hi
    obtain ⟨h2, h2b, w2, w2b, c2, c2b, hpe⟩ := mem_chwWrites.mp hp
    rw [Prod.mk.injEq] at hpe
    obtain ⟨hie, hve⟩ := hpe
    rw [hie] at hi
    have e1 : h2 = h := by omega
    have e2 : w2 = w := by omega
    have e3 : c2 = c := by omega
    show v = _
    rw [hve, e1, e2, e3]
  · exact ⟨(c * (640 * 640) + h * 640 + w, finalD (h * (640 * 3) + w * 3 + c)),
      mem_chwWrites.mpr ⟨h, hh, w, hw, c, hc, rfl⟩, rfl⟩

lemma round_le_round {x y : ℚ} (h : x ≤ y) : round x ≤ round y := by
  rw [round_eq, round_eq]
  exact Int.floor_mono (by linarith)

lemma newWidthFor_le (origWidth origHeight : ℕ) (hw : 0 < origWidth) :
    newWidthFor origWidth origHeight ≤ 640 := by
  unfold newWidthFor
  have hwq : (0 : ℚ) < (origWidth : ℚ) := by exact_mod_cast hw
  have hs : (origWidth : ℚ) * scaleFor origWidth origHeight ≤ 640 := by
    unfold scaleFor
    calc (origWidth : ℚ) * min (640 / (origWidth : ℚ)) (640 / (origHeight : ℚ))
        ≤ (origWidth : ℚ) * (640 / (origWidth : ℚ)) :=
          mul_le_mul_of_nonneg_left (min_le_left _ _) (le_of_lt hwq)
      _ = 640 := by field_simp
  have hr : round ((origWidth : ℚ) * scaleFor origWidth origHeight) ≤ round ((640 : ℚ)) :=
    round_le_round hs
  have h640 : round ((640 : ℚ)) = 640 := by norm_num [round_eq]
  rw [h640] at hr
  exact Int.toNat_le.mpr (by exact_mod_cast hr)

lemma newHeightFor_le (origWidth origHeight : ℕ) (hh : 0 < origHeight) :
    newHeightFor origWidth origHeight ≤ 640 := by
  unfold newHeightFor
  have hhq : (0 : ℚ) < (origHeight : ℚ) := by exact_mod_cast hh
  have hs : (origHeight : ℚ) * scaleFor origWidth origHeight ≤ 640 := by
    unfold scaleFor
    calc (origHeight : ℚ) * min (640 / (origWidth : ℚ)) (640 / (origHeight : ℚ))
        ≤ (origHeight : ℚ) * (640 / (origHeight : ℚ)) :=
          mul_le_mul_of_nonneg_left (min_le_right _ _) (le_of_lt hhq)
      _ = 640 := by field_simp
  have hr : round ((origHeight : ℚ) * scaleFor origWidth origHeight) ≤ round ((640 : ℚ)) :=
    round_le_round hs
  have h640 : round ((640 : ℚ)) = 640 := by norm_num [round_eq]
  rw [h640] at hr
  exact Int.toNat_le.mpr (by exact_mod_cast hr)

lemma xOffsetFor_bound (origWidth origHeight : ℕ) (hw : 0 < origWidth) :
    xOffsetFor origWidth origHeight + newWidthFor origWidth origHeight ≤ 640 := by
  have := newWidthFor_le origWidth origHeight hw
  unfold xOffsetFor
  omega

lemma yOffsetFor_bound (origWidth origHeight : ℕ) (hh : 0 < origHeight) :
    yOffsetFor origWidth origHeight + newHeightFor origWidth origHeight ≤ 640 := by
  have := newHeightFor_le origWidth origHeight hh
  unfold yOffsetFor
  omega

lemma imageToTensor_data (origWidth origHeight : ℕ) (resized : ℕ → Fin 256) :
    (imageToTensor origWidth origHeight resized).data =
      chwDataFor origWidth origHeight resized := by
  simp only [imageToTensor]

/-- C2. The letterbox preprocessor: the returned tensor has shape exactly
[1, 3, 640, 640]; scale, newWidth, newHeight and the centering offsets
follow the claimed formulas; the CHW buffer is the HWC buffer re-laid-out
by CHW[c*H*W + h*W + w] = HWC[h*W*3 + w*3 + c]; every sample inside the
centered newWidth x newHeight region is the corresponding resized source
byte divided by 255, every sample outside it is 0, and every sample lies
in [0, 1]. -/
theorem letterbox_tensor_spec (origWidth origHeight : ℕ) (resized : ℕ → Fin 256)
    (hw : 0 < origWidth) (hh : 0 < origHeight) :
    (imageToTensor origWidth origHeight resized).dims = [1, 3, 640, 640] ∧
    scaleFor origWidth origHeight =
      min (640 / (origWidth : ℚ)) (640 / (origHeight : ℚ)) ∧
    newWidthFor origWidth origHeight =
      (round ((origWidth : ℚ) * scaleFor origWidth origHeight)).toNat ∧
    newHeightFor origWidth origHeight =
      (round ((origHeight : ℚ) * scaleFor origWidth origHeight)).toNat ∧
    xOffsetFor origWidth origHeight = (640 - newWidthFor origWidth origHeight) / 2 ∧
    yOffsetFor origWidth origHeight = (640 - newHeightFor origWidth origHeight) / 2 ∧
    (∀ c h w : ℕ, c < 3 → h < 640 → w < 640 →
      (imageToTensor origWidth origHeight resized).data (c * (640 * 640) + h * 640 + w) =
        finalDataFor resized (newWidthFor origWidth origHeight)
          (newHeightFor origWidth origHeight) (xOffsetFor origWidth origHeight)
          (yOffsetFor origWidth origHeight) (h * (640 * 3) + w * 3 + c)) ∧
    (∀ c h w : ℕ, c < 3 → h < 640 → w < 640 →
      (imageToTensor origWidth origHeight resized).data (c * (640 * 640) + h * 640 + w) =
        (if yOffsetFor origWidth origHeight ≤ h ∧
            h < yOffsetFor origWidth origHeight + newHeightFor origWidth origHeight ∧
            xOffsetFor origWidth origHeight ≤ w ∧
            w < xOffsetFor origWidth origHeight + newWidthFor origWidth origHeight then
          ((resized (((h - yOffsetFor origWidth origHeight) *
              newWidthFor origWidth origHeight +
              (w - xOffsetFor origWidth origHeight)) * 4 + c) : ℕ) : ℚ) / 255
        else 0)) ∧
    (∀ c h w : ℕ, c < 3 → h < 640 → w < 640 →
      0 ≤ (imageToTensor origWidth origHeight resized).data
          (c * (640 * 640) + h * 640 + w) ∧
        (imageToTensor origWidth origHeight resized).data
          (c * (640 * 640) + h * 640 + w) ≤ 1) := by
  have hrelay : ∀ c h w : ℕ, c < 3 → h < 640 → w < 640 →
      (imageToTensor origWidth origHeight resized).data (c * (640 * 640) + h * 640 + w) =
        finalDataFor resized (newWidthFor origWidth origHeight)
          (newHeightFor origWidth origHeight) (xOffsetFor origWidth origHeight)
          (yOffsetFor origWidth origHeight) (h * (640 * 3) + w * 3 + c) := by
    intro c h w hc hhb hwb
    rw [imageToTensor_data]
    unfold chwDataFor
    exact chwData_eq _ c h w hc hhb hwb
  have hclosed : ∀ c h w : ℕ, c < 3 → h < 640 → w < 640 →
      (imageToTensor origWidth origHeight resized).data (c * (640 * 640) + h * 640 + w) =
        (if yOffsetFor origWidth origHeight ≤ h ∧
            h < yOffsetFor origWidth origHeight + newHeightFor origWidth origHeight ∧
            xOffsetFor origWidth origHeight ≤ w ∧
            w < xOffsetFor origWidth origHeight + newWidthFor origWidth origHeight then
          ((resized (((h - yOffsetFor origWidth origHeight) *
              newWidthFor origWidth origHeight +
              (w - xOffsetFor origWidth origHeight)) * 4 + c) : ℕ) : ℚ) / 255
        else 0) := by
    intro c h w hc hhb hwb
    rw [hrelay c h w hc hhb hwb]
    exact finalDataFor_eq resized _ _ _ _
      (xOffsetFor_bound origWidth origHeight hw) h w c hhb hwb hc
  refine ⟨rfl, rfl, rfl, rfl, rfl, rfl, hrelay, hclosed, ?_⟩
  intro c h w hc hhb hwb
  rw [hclosed c h w hc hhb hwb]
  by_cases hreg : yOffsetFor origWidth origHeight ≤ h ∧
      h < yOffsetFor origWidth origHeight + newHeightFor origWidth origHeight ∧
      xOffsetFor origWidth origHeight ≤ w ∧
      w < xOffsetFor origWidth origHeight + newWidthFor origWidth origHeight
  · rw [if_pos hreg]
    set byte := resized (((h - yOffsetFor origWidth origHeight) *
      newWidthFor origWidth origHeight + (w - xOffsetFor origWidth origHeight)) * 4 + c)
    have hb0 : (0 : ℚ) ≤ ((byte : ℕ) : ℚ) := by positivity
    have hb255 : ((byte : ℕ) : ℚ) ≤ 255 := by
      have : (byte : ℕ) ≤ 255 := Nat.lt_succ_iff.mp byte.isLt
      exact_mod_cast this
    constructor
    · positivity
    · rw [div_le_one (by norm_num)]
      exact hb255
  · rw [if_neg hreg]
    norm_num

/-- C2 (witness). The letterbox theorem instantiated at a concrete 640x640
all-black image: the shape conjunct at that input. -/
theorem letterbox_tensor_spec_witness :
    (imageToTensor 640 640 (fun _ => 0)).dims = [1, 3, 640, 640] :=
  (letterbox_tensor_spec 640 640 (fun _ => 0) (by decide) (by decide)).1
